import Mathlib

/-!
The fetch / merge / dedup / transform pipeline of tautulli-yamtrack-exporter.

A shallow embedding of `main.go`.

* `HistoryItem`, `Value`: the decoded record and the loosely typed `interface{}` fields.
* `toString`, `formatISO8601`: the two leaf helpers.
* `dedupedMap`, `SortedItems`, `csvRow`, `WritesCSV`: the body of `writeToCSV`.
* `pageLoop`, `runCategory`, `runMain`: the pagination loop of `main` and its exports.
* `goFormat`, `parseLayout`: the library's `Format` and `Parse` for the layout of
  `formatISO8601`, with the local time zone as a parameter.

Conventions.  `int64` and `int` fields are `Int`; the program only compares them, so no
wrap-around can occur on them.  A Go `map[int]HistoryItem` is an association list with
unique keys; since Go leaves the iteration order of a map unspecified and `sort.Slice` is
not stable, the sorted slice is described by the relation `SortedItems` (every ordering the
language permits), together with one executable ordering `sortedItemsStable`.
-/

namespace TautulliExporter

/-! ## Data model -/

/-- A value held by an `interface{}` field after JSON decoding.  `float64 q` is a finite
double whose exact value is the rational `q`; `other s` is any value that reaches the
`default` branch of `toString`, carried as its `%v` rendering `s`. -/
inductive Value where
  | null
  | str (s : String)
  | float64 (q : ℚ)
  | int (n : Int)
  | other (rendered : String)
  deriving DecidableEq

/-- The Go struct `HistoryItem`. -/
structure HistoryItem where
  Title : String
  MediaType : String
  Started : Int
  Stopped : Int
  Date : Int
  RatingKey : Int
  ParentTitle : String
  GrandparentTitle : String
  MediaIndex : Value
  ParentMediaIndex : Value
  deriving DecidableEq

/-- The zero value of `HistoryItem`, what a failed map lookup yields. -/
def HistoryItem.zero : HistoryItem :=
  { Title := "", MediaType := "", Started := 0, Stopped := 0, Date := 0, RatingKey := 0,
    ParentTitle := "", GrandparentTitle := "", MediaIndex := Value.null,
    ParentMediaIndex := Value.null }

/-- The timestamp computed three times in `writeToCSV`:
`ts := x.Stopped; if ts == 0 { ts = x.Date }`. -/
def effectiveTs (x : HistoryItem) : Int :=
  if x.Stopped = 0 then x.Date else x.Stopped

/-! ## The deduplication loop of `writeToCSV` -/

/-- A Go `map[int]HistoryItem`. -/
abbrev ItemMap := List (Int × HistoryItem)

/-- The two-result lookup `existing, found := m[k]`. -/
def mapGet : ItemMap → Int → HistoryItem × Bool
  | [], _ => (HistoryItem.zero, false)
  | (k', v) :: m, k => if k' = k then (v, true) else mapGet m k

/-- The assignment `m[k] = v`. -/
def mapSet : ItemMap → Int → HistoryItem → ItemMap
  | [], k, v => [(k, v)]
  | (k', v') :: m, k, v => if k' = k then (k, v) :: m else (k', v') :: mapSet m k v

/-- One iteration of `for _, item := range items` over `dedupedMap`. -/
def dedupeStep (m : ItemMap) (item : HistoryItem) : ItemMap :=
  let (existing, found) := mapGet m item.RatingKey
  let currentTs := if item.Stopped = 0 then item.Date else item.Stopped
  let existingTs := if existing.Stopped = 0 then existing.Date else existing.Stopped
  if !found || decide (currentTs > existingTs) then mapSet m item.RatingKey item else m

/-- The map `dedupedMap` once the first loop of `writeToCSV` has finished. -/
def dedupedMap (items : List HistoryItem) : ItemMap :=
  items.foldl dedupeStep []

/-- The records held by `dedupedMap`, the elements `range dedupedMap` visits. -/
def dedupedItems (items : List HistoryItem) : List HistoryItem :=
  (dedupedMap items).map Prod.snd

/-! ## Sorting -/

/-- The `less` closure handed to `sort.Slice`. -/
def lessTs (a b : HistoryItem) : Bool :=
  let tsI := if a.Stopped = 0 then a.Date else a.Stopped
  let tsJ := if b.Stopped = 0 then b.Date else b.Stopped
  decide (tsI > tsJ)

/-- The possible contents of `sortedItems` after `sort.Slice`: the map's records in some
order (map iteration order is unspecified, the sort is not stable) such that no later
element is `less` than an earlier one. -/
def SortedItems (items out : List HistoryItem) : Prop :=
  out.Perm (dedupedItems items) ∧ out.Pairwise (fun a b => lessTs b a = false)

instance (items out : List HistoryItem) : Decidable (SortedItems items out) := by
  unfold SortedItems; infer_instance

/-- One ordering the language permits: visit the map in insertion order and sort stably. -/
def sortedItemsStable (items : List HistoryItem) : List HistoryItem :=
  (dedupedItems items).insertionSort (fun a b => lessTs b a = false)

/-! ## Leaf helpers: `toString` and `formatISO8601` -/

/-- What the program takes from its platform and from the Go library.
`floatConv` is the result of `int(f)` for a `float64` whose integer part does not fit an
`int` (the language leaves that value implementation-dependent);
`unixFormat ts` is `time.Unix(ts, 0).Format("2006-01-02 15:04:05-07:00")`;
`absPath` is `filepath.Abs`. -/
structure Runtime where
  floatConv : ℚ → Int
  unixFormat : Int → String
  absPath : String → String

/-- Reduction of an integer to the range of a 64-bit `int`. -/
def wrapInt (z : Int) : Int := (z + 2 ^ 63) % 2 ^ 64 - 2 ^ 63

/-- The conversion `int(val)` of a finite `float64`: the fraction is discarded (truncation
toward zero) when the result fits an `int`; otherwise some `int`, chosen by the platform. -/
def floatToInt (conv : ℚ → Int) (q : ℚ) : Int :=
  let t := q.num.tdiv q.den
  if -(2 ^ 63) ≤ t ∧ t < 2 ^ 63 then t else wrapInt (conv q)

/-- The library function `strconv.Itoa`: decimal digits, with a leading `-` if negative. -/
def Itoa : Int → String
  | Int.ofNat m => Nat.repr m
  | Int.negSucc m => "-" ++ Nat.repr (m + 1)

/-- The function `toString` of the source. -/
def toString (conv : ℚ → Int) : Value → String
  | Value.null => ""
  | Value.str val => val
  | Value.float64 val => Itoa (floatToInt conv val)
  | Value.int val => Itoa val
  | Value.other rendered => rendered

/-- The function `formatISO8601` of the source, over the library formatting `fmt`. -/
def formatISO8601 (fmt : Int → String) (ts : Int) : String :=
  if ts = 0 then "" else fmt ts

/-! ## Rows of the CSV file -/

/-- The header record written first. -/
def csvHeader : List String :=
  ["media_id", "source", "media_type", "title", "image", "season_number", "episode_number",
   "score", "status", "notes", "start_date", "end_date", "progress"]

/-- The notes literal of every data row. -/
def notesText : String :=
  "Exported from Tautulli via github.com/dbeg/tautulli-yamtrack-exporter"

/-- The title column: `displayTitle` after the `if item.MediaType == "episode"` block. -/
def displayTitle (item : HistoryItem) : String :=
  if item.MediaType = "episode" then
    (if item.GrandparentTitle ≠ "" then item.GrandparentTitle else item.Title)
  else item.Title

/-- The season column: `seasonNum` after the `if item.MediaType == "episode"` block. -/
def seasonNum (rt : Runtime) (item : HistoryItem) : String :=
  if item.MediaType = "episode" then toString rt.floatConv item.ParentMediaIndex else ""

/-- The episode column: `episodeNum` after the `if item.MediaType == "episode"` block. -/
def episodeNum (rt : Runtime) (item : HistoryItem) : String :=
  if item.MediaType = "episode" then toString rt.floatConv item.MediaIndex else ""

/-- The record handed to `writer.Write` for one element of `sortedItems`. -/
def csvRow (rt : Runtime) (item : HistoryItem) : List String :=
  ["", "tmdb", item.MediaType, displayTitle item, "", seasonNum rt item, episodeNum rt item,
   "", "Completed", notesText, formatISO8601 rt.unixFormat item.Started,
   formatISO8601 rt.unixFormat item.Stopped, "100"]

/-- The records written for a given content of `sortedItems`: header, then one per item. -/
def csvRecords (rt : Runtime) (out : List HistoryItem) : List (List String) :=
  csvHeader :: out.map (csvRow rt)

/-- The effect of one call `writeToCSV(filename, items)`: the records of the file it
produces (`none`: no file) and the paths it appends to `createdFiles`. -/
structure CsvOutcome where
  file : Option (List (List String))
  created : List String

/-- The possible outcomes of `writeToCSV(filename, items)`; `createOk` tells whether
`os.Create` succeeds. -/
def WritesCSV (rt : Runtime) (createOk : Bool) (filename : String) (items : List HistoryItem)
    (res : CsvOutcome) : Prop :=
  if items.length = 0 then res = ⟨none, []⟩
  else if createOk = false then res = ⟨none, []⟩
  else ∃ out, SortedItems items out ∧ res = ⟨some (csvRecords rt out), [rt.absPath filename]⟩

/-! ## The pagination loop of `main` -/

/-- The decoded part of one response the loop reads: `tResp.Response.Data.Data` and
`tResp.Response.Data.RecordsFiltered`.  A body that fails to decode leaves both zero. -/
structure Page where
  items : List HistoryItem
  recordsFiltered : Int

/-- The paged data source as the loop meets it: the reply to the request number `n`
(counted from 0 within the category) for `media_type` and `start`; `none` is `err != nil`. -/
abbrev PageSource := String → Nat → Nat → Option Page

/-- The constant `pageSize := 100`. -/
def pageSize : Nat := 100

/-- The variables the inner `for` loop updates, with the list of `start` values requested
so far.  Offsets and lengths are natural numbers: each continuing pass adds at least
`pageSize` records to `categorized` and exactly `pageSize` to `startOffset`, so the offset
never exceeds the length of a slice held in memory and cannot overflow. -/
structure LoopState where
  startOffset : Nat
  categorized : List HistoryItem
  globalHistory : List HistoryItem
  requests : List Nat
  batchFiles : List String

/-- The path `batchPath` of the page snapshot. -/
def batchPath (sessionID mType : String) (startOffset : Nat) : String :=
  "tmp/" ++ sessionID ++ "/" ++ mType ++ "/batch_" ++ Nat.repr startOffset ++ ".json"

/-- One pass through the body of the inner `for` loop, after the request has been issued
and answered by `reply`.  The flag tells whether the loop goes round again. -/
def loopBody (dryRun : Bool) (sessionID mType : String) (reply : Option Page)
    (st : LoopState) : LoopState × Bool :=
  match reply with
  | none => (st, false)
  | some page =>
    let total := page.recordsFiltered
    if dryRun then (st, false)
    else if total = 0 then (st, false)
    else
      let items := page.items
      let st1 : LoopState :=
        { st with
          batchFiles := st.batchFiles ++ [batchPath sessionID mType st.startOffset]
          categorized := st.categorized ++ items
          globalHistory := st.globalHistory ++ items }
      if (st1.categorized.length : Int) ≥ total ∨ items.length < pageSize then (st1, false)
      else ({ st1 with startOffset := st1.startOffset + pageSize }, true)

/-- The inner `for` loop, run for at most `fuel` passes; `none` when the fuel runs out
before a `break`. -/
def pageLoop (src : PageSource) (dryRun : Bool) (sessionID mType : String) :
    Nat → LoopState → Option LoopState
  | 0, _ => none
  | fuel + 1, st =>
    let reply := src mType st.requests.length st.startOffset
    let res := loopBody dryRun sessionID mType reply
      { st with requests := st.requests ++ [st.startOffset] }
    if res.2 then pageLoop src dryRun sessionID mType fuel res.1 else some res.1

/-- What one pass of the outer loop over `mediaTypes` leaves behind. -/
structure CategoryResult where
  requests : List Nat
  categorized : List HistoryItem
  globalHistory : List HistoryItem
  batchFiles : List String
  exported : Option (String × List HistoryItem)

/-- The name of the CSV file of a category (or of `global`). -/
def csvName (sessionID scope : String) : String :=
  "./out/tautulli-yamtrack-exporter_" ++ sessionID ++ "_" ++ scope ++ ".csv"

/-- The call `writeToCSV(fileName, categorizedData[mType])` guarded by
`!dryRun && len(categorizedData[mType]) > 0`: its arguments when it is made. -/
def exportCall (dryRun : Bool) (sessionID scope : String) (items : List HistoryItem) :
    Option (String × List HistoryItem) :=
  if !dryRun && decide (items.length > 0) then some (csvName sessionID scope, items) else none

/-- The loop variables on entry to the inner loop of a category: `startOffset := 0`, the
category's slot of `categorizedData` still empty, `globalHistory` as left by the
categories before. -/
def LoopState.initial (globalHistory : List HistoryItem) : LoopState :=
  { startOffset := 0, categorized := [], globalHistory := globalHistory,
    requests := [], batchFiles := [] }

/-- One pass of `for _, mType := range mediaTypes`: paginate from offset 0 with an empty
category collection, then export. -/
def runCategory (src : PageSource) (dryRun : Bool) (sessionID mType : String) (fuel : Nat)
    (globalHistory : List HistoryItem) : Option CategoryResult :=
  match pageLoop src dryRun sessionID mType fuel (LoopState.initial globalHistory) with
  | none => none
  | some st =>
    some { requests := st.requests, categorized := st.categorized,
           globalHistory := st.globalHistory, batchFiles := st.batchFiles,
           exported := exportCall dryRun sessionID mType st.categorized }

/-- The list `mediaTypes`. -/
def mediaTypes : List String := ["movie", "episode"]

/-- The observable result of `main` after flag handling. -/
structure RunResult where
  categories : List (String × CategoryResult)
  globalHistory : List HistoryItem
  globalExport : Option (String × List HistoryItem)

/-- The outer loop over the categories `types`, threading `globalHistory`. -/
def runCategories (src : PageSource) (dryRun : Bool) (sessionID : String) (fuel : Nat) :
    List String → List HistoryItem → Option (List (String × CategoryResult) × List HistoryItem)
  | [], g => some ([], g)
  | mType :: rest, g =>
    match runCategory src dryRun sessionID mType fuel g with
    | none => none
    | some r =>
      match runCategories src dryRun sessionID fuel rest r.globalHistory with
      | none => none
      | some (rs, g') => some ((mType, r) :: rs, g')

/-- The body of `main` from the category loop on. -/
def runMain (src : PageSource) (dryRun : Bool) (sessionID : String) (fuel : Nat) :
    Option RunResult :=
  match runCategories src dryRun sessionID fuel mediaTypes [] with
  | none => none
  | some (rs, g) =>
    some { categories := rs, globalHistory := g,
           globalExport := exportCall dryRun sessionID "global" g }

/-! ## Specification-side notions and sample data -/

/-- The integer part of a rational, fraction discarded toward zero, as the specification
words it: the floor of a non-negative value, the ceiling of a negative one. -/
def truncTowardZero (q : ℚ) : Int :=
  if 0 ≤ q then ⌊q⌋ else ⌈q⌉

/-- A sample runtime: out-of-range conversions give the least `int`, timestamps are
rendered as their decimal epoch, paths are kept as they are. -/
def sampleRuntime : Runtime :=
  { floatConv := fun _ => -(2 ^ 63), unixFormat := fun ts => Itoa ts, absPath := fun p => p }

/-- A sample movie record with the given key, `stopped` and `date`. -/
def sampleMovie (key stopped date : Int) : HistoryItem :=
  { HistoryItem.zero with
    Title := "Movie", MediaType := "movie", RatingKey := key, Stopped := stopped, Date := date }

/-- A sample episode record with the given key, show title and ordinals. -/
def sampleEpisode (key : Int) (show_ : String) (season episode : Value) : HistoryItem :=
  { HistoryItem.zero with
    Title := "Pilot", MediaType := "episode", RatingKey := key, Stopped := 7,
    GrandparentTitle := show_, ParentMediaIndex := season, MediaIndex := episode }

/-- A page source serving a fixed list of records: a request at offset `o` is answered
with the records at positions `o` up to `min (o + pageSize) N` and `recordsFiltered = N`. -/
def listSource (records : List HistoryItem) : PageSource :=
  fun _ _ o => some ⟨(records.drop o).take pageSize, records.length⟩

/-- The loop variables after a page on which the loop goes round again. -/
def LoopState.afterPage (sessionID mType : String) (st : LoopState) (p : Page) : LoopState :=
  { startOffset := st.startOffset + pageSize
    categorized := st.categorized ++ p.items
    globalHistory := st.globalHistory ++ p.items
    requests := st.requests ++ [st.startOffset]
    batchFiles := st.batchFiles ++ [batchPath sessionID mType st.startOffset] }

/-- The loop variables after a run of pages on each of which the loop goes round again. -/
def LoopState.afterPages (sessionID mType : String) : LoopState → List Page → LoopState
  | st, [] => st
  | st, p :: ps => LoopState.afterPages sessionID mType (st.afterPage sessionID mType p) ps

/-- The source answers the next requests with `pages`, each reporting a nonzero total above
the accumulated count and carrying at least `pageSize` items. -/
def FullPages (src : PageSource) (sessionID mType : String) : LoopState → List Page → Prop
  | _, [] => True
  | st, p :: ps =>
    src mType st.requests.length st.startOffset = some p ∧
    p.recordsFiltered ≠ 0 ∧
    ((st.categorized ++ p.items).length : Int) < p.recordsFiltered ∧
    pageSize ≤ p.items.length ∧
    FullPages src sessionID mType (st.afterPage sessionID mType p) ps

/-- A list of 150 sample records with keys 0 to 149. -/
def sampleRecords150 : List HistoryItem :=
  (List.range 150).map (fun (i : Nat) => sampleMovie (Int.ofNat i) 5 0)

/-- The loop variables after `k` full pages served by `listSource records`, on top of the
global collection `g` and the snapshot paths `b`. -/
def listState (records g : List HistoryItem) (k : Nat) (b : List String) : LoopState :=
  LoopState.mk (100 * k) (records.take (100 * k)) (g ++ records.take (100 * k))
    ((List.range k).map (fun i => 100 * i)) b

/-- A source whose first reply is a full page of 100 records reporting a total of 150 and
whose every later request fails in transport. -/
def failingSource : PageSource :=
  fun _ n _ => if n = 0 then some ⟨sampleRecords150.take 100, 150⟩ else none

/-! ## The library's clock and calendar

The call `time.Unix(ts, 0).Format("2006-01-02 15:04:05-07:00")` of `formatISO8601`, and
`time.Parse` with the same layout, as the Go library computes them (`absDate`, `absClock`,
`appendInt`, `Date`, `daysSinceEpoch`, as written up to Go 1.22; later releases compute the
same proleptic Gregorian dates).  `time.Unix` yields a time in the location `Local`, so the
zone is a parameter. -/

/-- A location as the formatter uses it: the offset from UTC, in seconds east, that is in
force at a given Unix time (`Location.lookup`). -/
abbrev Zone := Int → Int

/-- A zone of constant offset, such as `time.FixedZone` or `Etc/GMT-1`. -/
def fixedZone (offset : Int) : Zone := fun _ => offset

/-- The zone `UTC`. -/
def utcZone : Zone := fixedZone 0

/-- The constant `absoluteZeroYear`. -/
def absoluteZeroYear : Int := -292277022399

/-- The constant `unixToInternal + internalToAbsolute`: the absolute second count of the
Unix epoch. -/
def unixToAbsolute : Int := 9223372028715321600

/-- The `uint64` value `abs` of `Time.abs`: seconds since the absolute zero year in the
zone's wall clock, reduced modulo `2^64`. -/
def absSeconds (zone : Zone) (ts : Int) : Nat :=
  ((ts + zone ts + unixToAbsolute) % 2 ^ 64).toNat

/-- The function `isLeap`. -/
def isLeap (year : Int) : Bool :=
  decide (year % 4 = 0) && (decide (year % 100 ≠ 0) || decide (year % 400 = 0))

/-- The table `daysBefore`: `daysBefore m` is the number of days in a non-leap year before
month `m + 1`. -/
def daysBefore (m : Nat) : Nat :=
  [0, 31, 59, 90, 120, 151, 181, 212, 243, 273, 304, 334, 365].getD m 0

/-- The first half of `absDate`: the year, counted from `absoluteZeroYear`, and the day
within the year, from the number of days since the absolute zero year. -/
def absYearDay (days : Nat) : Nat × Nat :=
  let n := days / 146097
  let y := 400 * n
  let d := days - 146097 * n
  let n := d / 36524
  let n := n - n / 4
  let y := y + 100 * n
  let d := d - 36524 * n
  let n := d / 1461
  let y := y + 4 * n
  let d := d - 1461 * n
  let n := d / 365
  let n := n - n / 4
  let y := y + n
  let d := d - 365 * n
  (y, d)

/-- The second half of `absDate`: month (January is 1) and day of the month from the day
within the year. -/
def monthDay (leap : Bool) (yday : Nat) : Nat × Nat :=
  if leap && decide (yday = 31 + 29 - 1) then (2, 29)
  else
    let day := if leap && decide (yday > 31 + 29 - 1) then yday - 1 else yday
    let month := day / 31
    let end_ := daysBefore (month + 1)
    if day ≥ end_ then (month + 1 + 1, day - end_ + 1)
    else (month + 1, day - daysBefore month + 1)

/-- The function `absDate`: year, month and day of an absolute day count. -/
def absDate (days : Nat) : Int × Nat × Nat :=
  let yd := absYearDay days
  let year : Int := (yd.1 : Int) + absoluteZeroYear
  (year, monthDay (isLeap year) yd.2)

/-- The function `absClock`: hour, minute and second of an absolute second count. -/
def absClock (abs : Nat) : Nat × Nat × Nat :=
  let sec := abs % 86400
  let hour := sec / 3600
  let sec := sec - hour * 3600
  let min := sec / 60
  let sec := sec - min * 60
  (hour, min, sec)

/-- The function `appendInt`: the decimal form of `x`, zero-padded to `width` digits, with a
leading `-` for a negative `x`. -/
def appendInt (x : Int) (width : Nat) : String :=
  let u := x.natAbs
  let sign := if x < 0 then "-" else ""
  if width = 2 ∧ u < 100 then
    sign ++ String.mk [Nat.digitChar (u / 10), Nat.digitChar (u % 10)]
  else if width = 4 ∧ u < 10000 then
    sign ++ String.mk [Nat.digitChar (u / 1000), Nat.digitChar (u / 100 % 10),
      Nat.digitChar (u / 10 % 10), Nat.digitChar (u % 10)]
  else
    sign ++ String.mk (List.replicate (width - (Nat.repr u).length) '0') ++ Nat.repr u

/-- The text written for the layout element `-07:00`: sign, hours and minutes of the
offset, the seconds of the offset being dropped. -/
def zoneText (offset : Int) : String :=
  let zone := offset.tdiv 60
  if zone < 0 then "-" ++ appendInt ((-zone).tdiv 60) 2 ++ ":" ++ appendInt ((-zone).tmod 60) 2
  else "+" ++ appendInt (zone.tdiv 60) 2 ++ ":" ++ appendInt (zone.tmod 60) 2

/-- The text written for the layout elements `2006-01-02 15:04:05` from an absolute second
count. -/
def clockText (abs : Nat) : String :=
  let date := absDate (abs / 86400)
  let clock := absClock abs
  appendInt date.1 4 ++ "-" ++ appendInt date.2.1 2 ++ "-" ++ appendInt date.2.2 2 ++ " " ++
    appendInt clock.1 2 ++ ":" ++ appendInt clock.2.1 2 ++ ":" ++ appendInt clock.2.2 2

/-- The value of `time.Unix(ts, 0).Format("2006-01-02 15:04:05-07:00")` when the location
`Local` is `zone`. -/
def goFormat (zone : Zone) (ts : Int) : String :=
  clockText (absSeconds zone ts) ++ zoneText (zone ts)

/-- A runtime whose local time zone is `zone`. -/
def zoneRuntime (zone : Zone) : Runtime :=
  { floatConv := fun _ => -(2 ^ 63), unixFormat := goFormat zone, absPath := fun p => p }

/-- The value of a decimal digit character, as `isDigit` and `s[i] - '0'` read it. -/
def digitVal (c : Char) : Option Nat :=
  if '0' ≤ c ∧ c ≤ '9' then some (c.toNat - 48) else none

/-- The function `getnum(s, true)` on two characters. -/
def getnum2 (a b : Char) : Option Nat :=
  match digitVal a, digitVal b with
  | some x, some y => some (x * 10 + y)
  | _, _ => none

/-- The reading of the year, `atoi` on exactly four digits. -/
def getnum4 (a b c d : Char) : Option Nat :=
  match digitVal a, digitVal b, digitVal c, digitVal d with
  | some x, some y, some z, some w => some (x * 1000 + y * 100 + z * 10 + w)
  | _, _, _, _ => none

/-- The function `daysIn`. -/
def daysIn (month : Nat) (year : Int) : Nat :=
  if month = 2 ∧ isLeap year = true then 29 else daysBefore month - daysBefore (month - 1)

/-- The function `daysSinceEpoch`, on the year counted from `absoluteZeroYear`. -/
def daysSinceEpoch (year : Int) : Nat :=
  let y := ((year - absoluteZeroYear) % 2 ^ 64).toNat
  let n := y / 400
  let y := y - 400 * n
  let d := 146097 * n
  let n := y / 100
  let y := y - 100 * n
  let d := d + 36524 * n
  let n := y / 4
  let y := y - 4 * n
  let d := d + 1461 * n
  d + 365 * y

/-- The Unix time of `Date(year, month, day, hour, min, sec, 0, UTC)` for fields already in
their ranges (no normalisation of overflowing fields). -/
def dateUnix (year : Int) (month day hour min sec : Nat) : Int :=
  let d := daysSinceEpoch year + daysBefore (month - 1)
  let d := if isLeap year = true ∧ month ≥ 3 then d + 1 else d
  let d := d + (day - 1)
  let abs : Nat := (d * 86400 + (hour * 3600 + min * 60 + sec)) % 2 ^ 64
  wrapInt ((abs : Int) - unixToAbsolute)

/-- The instant `time.Parse("2006-01-02 15:04:05-07:00", s)` returns, as Unix seconds, or
`none` when it returns an error.  The model reads the fixed-width form that `Format`
writes (four-digit year, two digits elsewhere); the library also accepts a one-digit hour
and a fractional second, on which this model answers `none`. -/
def parseLayout (s : String) : Option Int :=
  match s.data with
  | [y3, y2, y1, y0, c4, m1, m0, c7, d1, d0, c10, h1, h0, c13, i1, i0, c16, s1, s0,
      sg, z1, z0, c22, w1, w0] =>
    if c4 = '-' ∧ c7 = '-' ∧ c10 = ' ' ∧ c13 = ':' ∧ c16 = ':' ∧ c22 = ':'
        ∧ (sg = '+' ∨ sg = '-') then
      match getnum4 y3 y2 y1 y0, getnum2 m1 m0, getnum2 d1 d0, getnum2 h1 h0,
          getnum2 i1 i0, getnum2 s1 s0, getnum2 z1 z0, getnum2 w1 w0 with
      | some year, some month, some day, some hour, some min, some sec, some zh, some zm =>
        if 1 ≤ month ∧ month ≤ 12 ∧ 1 ≤ day ∧ day ≤ daysIn month year ∧ hour < 24
            ∧ min < 60 ∧ sec < 60 ∧ zh ≤ 24 ∧ zm ≤ 60 then
          let zoneOffset : Int := ((zh * 60 + zm) * 60 : Nat)
          let zoneOffset := if sg = '-' then -zoneOffset else zoneOffset
          some (dateUnix year month day hour min sec - zoneOffset)
        else none
      | _, _, _, _, _, _, _, _ => none
    else none
  | _ => none

/-- A source that answers every request with one record of key 1, of the media type
asked for, reporting a total of 1: the two categories then hold records of the same key. -/
def sharedKeySource : PageSource :=
  fun mType _ _ => some ⟨[{ sampleMovie 1 5 0 with MediaType := mType }], 1⟩

/-- The end-to-end scenario: one movie record, and three episode records of which two share
a key; each category is served in a single short page. -/
def scenarioSource : PageSource :=
  fun mType _ _ =>
    if mType = "movie" then some ⟨[sampleMovie 1 5 0], 1⟩
    else some ⟨[sampleEpisode 2 "Show" (Value.int 1) (Value.int 1),
                sampleEpisode 3 "Show" (Value.int 1) (Value.int 2),
                { sampleEpisode 2 "Show" (Value.int 1) (Value.int 1) with Stopped := 9 }], 3⟩

/-! ## Lemmas on the map operations -/

/-- The record `r` is, within `items`, the earliest record of its key with the greatest
effective timestamp. -/
def FirstMax (items : List HistoryItem) (r : HistoryItem) : Prop :=
  ∃ pre post, items = pre ++ r :: post ∧
    (∀ x ∈ pre, x.RatingKey = r.RatingKey → effectiveTs x < effectiveTs r) ∧
    (∀ x ∈ post, x.RatingKey = r.RatingKey → effectiveTs x ≤ effectiveTs r)

theorem mapGet_found (m : ItemMap) (k : Int) :
    (mapGet m k).2 = true ↔ k ∈ m.map Prod.fst := by
  induction m with
  | nil => simp [mapGet]
  | cons p m ih =>
    obtain ⟨k', v⟩ := p
    by_cases h : k' = k
    · simp [mapGet, h]
    · have h' : ¬ k = k' := fun e => h e.symm
      simp [mapGet, h, h', ih]

theorem mapGet_mem (m : ItemMap) (k : Int) (h : (mapGet m k).2 = true) :
    (k, (mapGet m k).1) ∈ m := by
  induction m with
  | nil => simp [mapGet] at h
  | cons p m ih =>
    obtain ⟨k', v⟩ := p
    by_cases hk : k' = k
    · simp [mapGet, hk]
    · simp only [mapGet, hk, if_false] at h ⊢
      exact List.mem_cons_of_mem _ (ih h)

theorem mapSet_keys_of_mem (m : ItemMap) (k : Int) (v : HistoryItem)
    (h : k ∈ m.map Prod.fst) : (mapSet m k v).map Prod.fst = m.map Prod.fst := by
  induction m with
  | nil => simp at h
  | cons p m ih =>
    obtain ⟨k', v'⟩ := p
    by_cases hk : k' = k
    · simp [mapSet, hk]
    · have hk' : ¬ k = k' := fun e => hk e.symm
      have hm : k ∈ m.map Prod.fst := by simpa [hk'] using h
      simp [mapSet, hk, ih hm]

theorem mapSet_keys_of_not_mem (m : ItemMap) (k : Int) (v : HistoryItem)
    (h : k ∉ m.map Prod.fst) : (mapSet m k v).map Prod.fst = m.map Prod.fst ++ [k] := by
  induction m with
  | nil => simp [mapSet]
  | cons p m ih =>
    obtain ⟨k', v'⟩ := p
    have hk : ¬ k' = k := by
      intro e; apply h; simp [e]
    have hm : k ∉ m.map Prod.fst := by
      intro hm; apply h; simp only [List.map_cons, List.mem_cons]; exact Or.inr hm
    simp [mapSet, hk, ih hm]

theorem mem_mapSet (m : ItemMap) (k : Int) (v : HistoryItem) (hnd : (m.map Prod.fst).Nodup)
    (k' : Int) (r : HistoryItem) (h : (k', r) ∈ mapSet m k v) :
    (k' = k ∧ r = v) ∨ (k' ≠ k ∧ (k', r) ∈ m) := by
  induction m with
  | nil =>
    simp only [mapSet, List.mem_singleton, Prod.mk.injEq] at h
    exact Or.inl h
  | cons p m ih =>
    obtain ⟨k0, v0⟩ := p
    simp only [List.map_cons, List.nodup_cons] at hnd
    by_cases hk : k0 = k
    · simp only [mapSet, hk, if_true, List.mem_cons, Prod.mk.injEq] at h
      rcases h with h | h
      · exact Or.inl h
      · right
        refine ⟨?_, List.mem_cons_of_mem _ h⟩
        intro e
        apply hnd.1
        rw [hk, ← e]
        exact List.mem_map_of_mem Prod.fst h
    · simp only [mapSet, hk, if_false, List.mem_cons, Prod.mk.injEq] at h
      rcases h with h | h
      · right
        refine ⟨?_, ?_⟩
        · rw [h.1]; exact hk
        · rw [h.1, h.2]; exact List.mem_cons_self _ _
      · rcases ih hnd.2 h with h' | h'
        · exact Or.inl h'
        · exact Or.inr ⟨h'.1, List.mem_cons_of_mem _ h'.2⟩

theorem mem_unique_of_nodup_keys (m : ItemMap) (hnd : (m.map Prod.fst).Nodup)
    (k : Int) (r r' : HistoryItem) (h : (k, r) ∈ m) (h' : (k, r') ∈ m) : r = r' := by
  induction m with
  | nil => simp at h
  | cons p m ih =>
    obtain ⟨k0, v0⟩ := p
    simp only [List.map_cons, List.nodup_cons] at hnd
    simp only [List.mem_cons, Prod.mk.injEq] at h h'
    rcases h with h | h <;> rcases h' with h' | h'
    · rw [h.2, h'.2]
    · exact absurd (List.mem_map_of_mem Prod.fst h') (by rw [h.1]; exact hnd.1)
    · exact absurd (List.mem_map_of_mem Prod.fst h) (by rw [h'.1]; exact hnd.1)
    · exact ih hnd.2 h h'

theorem dedupedMap_snoc (items : List HistoryItem) (x : HistoryItem) :
    dedupedMap (items ++ [x]) = dedupeStep (dedupedMap items) x := by
  simp [dedupedMap, List.foldl_append]

theorem FirstMax.mem {items : List HistoryItem} {r : HistoryItem} (h : FirstMax items r) :
    r ∈ items := by
  obtain ⟨pre, post, e, -, -⟩ := h
  rw [e]; simp

theorem FirstMax.le {items : List HistoryItem} {r : HistoryItem} (h : FirstMax items r)
    {x : HistoryItem} (hx : x ∈ items) (hk : x.RatingKey = r.RatingKey) :
    effectiveTs x ≤ effectiveTs r := by
  obtain ⟨pre, post, e, h1, h2⟩ := h
  rw [e] at hx
  simp only [List.mem_append, List.mem_cons] at hx
  rcases hx with hx | hx | hx
  · exact le_of_lt (h1 x hx hk)
  · rw [hx]
  · exact h2 x hx hk

/-- The loop invariant of the deduplication loop. -/
theorem dedupedMap_inv (items : List HistoryItem) :
    ((dedupedMap items).map Prod.fst).Nodup ∧
    (∀ y ∈ items, y.RatingKey ∈ (dedupedMap items).map Prod.fst) ∧
    (∀ k r, (k, r) ∈ dedupedMap items → r.RatingKey = k ∧ FirstMax items r) := by
  induction items using List.reverseRecOn with
  | nil => simp [dedupedMap]
  | append_singleton items x ih =>
    obtain ⟨hnd, hkeys, hmax⟩ := ih
    rw [dedupedMap_snoc]
    have keep : ∀ k r, r.RatingKey = k → FirstMax items r →
        (x.RatingKey = k → effectiveTs x ≤ effectiveTs r) →
        FirstMax (items ++ [x]) r := by
      intro k r hk hr hx
      obtain ⟨pre, post, e, h1, h2⟩ := hr
      refine ⟨pre, post ++ [x], by rw [e]; simp, h1, ?_⟩
      intro y hy hyk
      simp only [List.mem_append, List.mem_singleton] at hy
      rcases hy with hy | hy
      · exact h2 y hy hyk
      · subst hy; exact hx (hyk.trans hk)
    by_cases hf : (mapGet (dedupedMap items) x.RatingKey).2 = true
    · -- the key is present
      have hmem := mapGet_mem _ _ hf
      have hkm := (mapGet_found _ _).1 hf
      obtain ⟨hek, hemax⟩ := hmax _ _ hmem
      by_cases hgt : effectiveTs x > effectiveTs (mapGet (dedupedMap items) x.RatingKey).1
      · have hstep : dedupeStep (dedupedMap items) x
            = mapSet (dedupedMap items) x.RatingKey x := by
          unfold effectiveTs at hgt
          simp [dedupeStep, hf, hgt]
        rw [hstep, mapSet_keys_of_mem _ _ _ hkm]
        refine ⟨hnd, ?_, ?_⟩
        · intro y hy
          simp only [List.mem_append, List.mem_singleton] at hy
          rcases hy with hy | hy
          · exact hkeys y hy
          · rw [hy]; exact hkm
        · intro k r hr
          rcases mem_mapSet _ _ _ hnd _ _ hr with ⟨h1, h2⟩ | ⟨h1, h2⟩
          · subst h2
            refine ⟨h1.symm, items, [], rfl, ?_, by simp⟩
            intro y hy hyk
            exact lt_of_le_of_lt (hemax.le hy (hyk.trans hek.symm)) hgt
          · obtain ⟨hrk, hrmax⟩ := hmax _ _ h2
            refine ⟨hrk, keep k r hrk hrmax ?_⟩
            intro e; exact absurd e.symm h1
      · have hstep : dedupeStep (dedupedMap items) x = dedupedMap items := by
          unfold effectiveTs at hgt
          simp [dedupeStep, hf, hgt]
        rw [hstep]
        refine ⟨hnd, ?_, ?_⟩
        · intro y hy
          simp only [List.mem_append, List.mem_singleton] at hy
          rcases hy with hy | hy
          · exact hkeys y hy
          · rw [hy]; exact hkm
        · intro k r hr
          obtain ⟨hrk, hrmax⟩ := hmax _ _ hr
          refine ⟨hrk, keep k r hrk hrmax ?_⟩
          intro e
          have : r = (mapGet (dedupedMap items) x.RatingKey).1 := by
            apply mem_unique_of_nodup_keys _ hnd k r _ hr
            rw [← e]; exact hmem
          rw [this]
          exact not_lt.1 hgt
    · -- the key is new
      have hkm : x.RatingKey ∉ (dedupedMap items).map Prod.fst := by
        intro h; exact hf ((mapGet_found _ _).2 h)
      have hstep : dedupeStep (dedupedMap items) x
          = mapSet (dedupedMap items) x.RatingKey x := by
        simp [dedupeStep, hf]
      rw [hstep, mapSet_keys_of_not_mem _ _ _ hkm]
      refine ⟨?_, ?_, ?_⟩
      · rw [List.nodup_append]
        refine ⟨hnd, List.nodup_singleton _, ?_⟩
        intro a ha hb
        simp only [List.mem_singleton] at hb
        subst hb; exact hkm ha
      · intro y hy
        simp only [List.mem_append, List.mem_singleton] at hy ⊢
        rcases hy with hy | hy
        · exact Or.inl (hkeys y hy)
        · right; rw [hy]
      · intro k r hr
        rcases mem_mapSet _ _ _ hnd _ _ hr with ⟨h1, h2⟩ | ⟨h1, h2⟩
        · subst h2
          refine ⟨h1.symm, items, [], rfl, ?_, by simp⟩
          intro y hy hyk
          exact absurd (hyk ▸ hkeys y hy) hkm
        · obtain ⟨hrk, hrmax⟩ := hmax _ _ h2
          refine ⟨hrk, keep k r hrk hrmax ?_⟩
          intro e; exact absurd e.symm h1

theorem dedupedItems_keys (items : List HistoryItem) :
    (dedupedItems items).map HistoryItem.RatingKey = (dedupedMap items).map Prod.fst := by
  unfold dedupedItems
  rw [List.map_map]
  apply List.map_congr_left
  intro p hp
  exact ((dedupedMap_inv items).2.2 p.1 p.2 hp).1

theorem mem_dedupedItems {items : List HistoryItem} {r : HistoryItem}
    (h : r ∈ dedupedItems items) : (r.RatingKey, r) ∈ dedupedMap items := by
  unfold dedupedItems at h
  obtain ⟨p, hp, e⟩ := List.mem_map.1 h
  have hk := ((dedupedMap_inv items).2.2 p.1 p.2 hp).1
  rw [← e, hk]
  exact hp

theorem dedupedItems_firstMax {items : List HistoryItem} {r : HistoryItem}
    (h : r ∈ dedupedItems items) : FirstMax items r :=
  ((dedupedMap_inv items).2.2 _ _ (mem_dedupedItems h)).2

theorem dedupedItems_nodup_keys (items : List HistoryItem) :
    ((dedupedItems items).map HistoryItem.RatingKey).Nodup := by
  rw [dedupedItems_keys]; exact (dedupedMap_inv items).1

/-- With pairwise distinct effective timestamps, a record is kept exactly when it is in
the input and no record of its key has a greater timestamp. -/
theorem mem_dedupedItems_iff (items : List HistoryItem)
    (hd : (items.map effectiveTs).Nodup) (r : HistoryItem) :
    r ∈ dedupedItems items ↔
      r ∈ items ∧ ∀ x ∈ items, x.RatingKey = r.RatingKey → effectiveTs x ≤ effectiveTs r := by
  constructor
  · intro h
    have hm := dedupedItems_firstMax h
    exact ⟨hm.mem, fun x hx hk => hm.le hx hk⟩
  · rintro ⟨hr, hmax⟩
    have hk : r.RatingKey ∈ (dedupedItems items).map HistoryItem.RatingKey := by
      rw [dedupedItems_keys]; exact (dedupedMap_inv items).2.1 r hr
    obtain ⟨r', hr', e⟩ := List.mem_map.1 hk
    have hm := dedupedItems_firstMax hr'
    have h1 : effectiveTs r ≤ effectiveTs r' := hm.le hr e.symm
    have h2 : effectiveTs r' ≤ effectiveTs r := hmax r' hm.mem e
    have : r' = r := List.inj_on_of_nodup_map hd hm.mem hr (le_antisymm h2 h1)
    rw [← this]; exact hr'

theorem dedupedItems_perm {l₁ l₂ : List HistoryItem} (hp : l₁.Perm l₂)
    (hd : (l₁.map effectiveTs).Nodup) : (dedupedItems l₁).Perm (dedupedItems l₂) := by
  have hd2 : (l₂.map effectiveTs).Nodup := (hp.map effectiveTs).nodup_iff.1 hd
  rw [List.perm_ext_iff_of_nodup (List.Nodup.of_map _ (dedupedItems_nodup_keys l₁))
    (List.Nodup.of_map _ (dedupedItems_nodup_keys l₂))]
  intro r
  rw [mem_dedupedItems_iff l₁ hd, mem_dedupedItems_iff l₂ hd2]
  constructor
  · rintro ⟨h1, h2⟩
    exact ⟨hp.mem_iff.1 h1, fun x hx => h2 x (hp.mem_iff.2 hx)⟩
  · rintro ⟨h1, h2⟩
    exact ⟨hp.mem_iff.2 h1, fun x hx => h2 x (hp.mem_iff.1 hx)⟩

theorem lessTs_eq_false_iff (a b : HistoryItem) :
    lessTs b a = false ↔ effectiveTs b ≤ effectiveTs a := by
  simp [lessTs, effectiveTs]

theorem SortedItems.pairwise_ge {items out : List HistoryItem} (h : SortedItems items out) :
    out.Pairwise (fun a b => effectiveTs b ≤ effectiveTs a) :=
  h.2.imp (fun {a b} hab => (lessTs_eq_false_iff a b).1 hab)

theorem map_injOn_eq {α β : Type} (f : α → β) :
    ∀ l₁ l₂ : List α, (∀ a ∈ l₁, ∀ b ∈ l₂, f a = f b → a = b) →
      l₁.map f = l₂.map f → l₁ = l₂
  | [], [], _, _ => rfl
  | [], _ :: _, _, h => by simp at h
  | _ :: _, [], _, h => by simp at h
  | a :: l₁, b :: l₂, hinj, h => by
    simp only [List.map_cons, List.cons.injEq] at h
    have hab : a = b := hinj a (List.mem_cons_self _ _) b (List.mem_cons_self _ _) h.1
    have ht : l₁ = l₂ :=
      map_injOn_eq f l₁ l₂
        (fun x hx y hy => hinj x (List.mem_cons_of_mem _ hx) y (List.mem_cons_of_mem _ hy)) h.2
    rw [hab, ht]

/-- Two descending arrangements of the same records carry the same timestamp sequence. -/
theorem sorted_perm_ts_eq {o₁ o₂ : List HistoryItem} (hp : o₁.Perm o₂)
    (h₁ : o₁.Pairwise (fun a b => effectiveTs b ≤ effectiveTs a))
    (h₂ : o₂.Pairwise (fun a b => effectiveTs b ≤ effectiveTs a)) :
    o₁.map effectiveTs = o₂.map effectiveTs := by
  have s₁ : (o₁.map effectiveTs).Sorted (· ≥ ·) := by
    unfold List.Sorted; rw [List.pairwise_map]; exact h₁
  have s₂ : (o₂.map effectiveTs).Sorted (· ≥ ·) := by
    unfold List.Sorted; rw [List.pairwise_map]; exact h₂
  exact List.eq_of_perm_of_sorted (hp.map effectiveTs) s₁ s₂

/-- Two descending arrangements of the same records, all of distinct timestamps, agree. -/
theorem sorted_perm_eq {o₁ o₂ : List HistoryItem} (hp : o₁.Perm o₂)
    (hd : (o₁.map effectiveTs).Nodup)
    (h₁ : o₁.Pairwise (fun a b => effectiveTs b ≤ effectiveTs a))
    (h₂ : o₂.Pairwise (fun a b => effectiveTs b ≤ effectiveTs a)) : o₁ = o₂ := by
  apply map_injOn_eq effectiveTs o₁ o₂ _ (sorted_perm_ts_eq hp h₁ h₂)
  intro a ha b hb e
  exact List.inj_on_of_nodup_map hd ha (hp.mem_iff.2 hb) e

theorem mapSet_of_not_mem (m : ItemMap) (k : Int) (v : HistoryItem)
    (h : k ∉ m.map Prod.fst) : mapSet m k v = m ++ [(k, v)] := by
  induction m with
  | nil => simp [mapSet]
  | cons p m ih =>
    obtain ⟨k', v'⟩ := p
    have hk : ¬ k' = k := by
      intro e; apply h; simp [e]
    have hm : k ∉ m.map Prod.fst := by
      intro hm; apply h; simp only [List.map_cons, List.mem_cons]; exact Or.inr hm
    simp [mapSet, hk, ih hm]

/-- On records of pairwise distinct keys the deduplication loop keeps every record. -/
theorem dedupedMap_of_nodup_keys (l : List HistoryItem)
    (h : (l.map HistoryItem.RatingKey).Nodup) :
    dedupedMap l = l.map (fun r => (r.RatingKey, r)) := by
  induction l using List.reverseRecOn with
  | nil => simp [dedupedMap]
  | append_singleton l x ih =>
    rw [List.map_append, List.nodup_append] at h
    obtain ⟨h1, -, h3⟩ := h
    rw [dedupedMap_snoc, ih h1]
    have hk : x.RatingKey ∉ (l.map (fun r => (r.RatingKey, r))).map Prod.fst := by
      rw [List.map_map]
      intro hx
      exact h3 hx (by simp)
    have hf : ¬ (mapGet (l.map (fun r => (r.RatingKey, r))) x.RatingKey).2 = true :=
      fun hf => hk ((mapGet_found _ _).1 hf)
    have hstep : dedupeStep (l.map (fun r => (r.RatingKey, r))) x
        = mapSet (l.map (fun r => (r.RatingKey, r))) x.RatingKey x := by
      simp [dedupeStep, hf]
    rw [hstep, mapSet_of_not_mem _ _ _ hk]
    simp

theorem dedupedItems_of_nodup_keys (l : List HistoryItem)
    (h : (l.map HistoryItem.RatingKey).Nodup) : dedupedItems l = l := by
  unfold dedupedItems
  rw [dedupedMap_of_nodup_keys l h, List.map_map]
  exact List.map_id _

theorem SortedItems.nodup_keys {items out : List HistoryItem} (h : SortedItems items out) :
    (out.map HistoryItem.RatingKey).Nodup :=
  ((h.1.map HistoryItem.RatingKey).nodup_iff).2 (dedupedItems_nodup_keys items)

/-- The executable ordering is one of the permitted results: `sort.Slice` always has an
outcome. -/
theorem sortedItemsStable_spec (items : List HistoryItem) :
    SortedItems items (sortedItemsStable items) := by
  refine ⟨List.perm_insertionSort _ _, ?_⟩
  have htot : IsTotal HistoryItem (fun a b => lessTs b a = false) :=
    ⟨fun a b => by
      rw [lessTs_eq_false_iff, lessTs_eq_false_iff]; exact le_total _ _⟩
  have htr : IsTrans HistoryItem (fun a b => lessTs b a = false) :=
    ⟨fun a b c hab hbc => by
      rw [lessTs_eq_false_iff] at *; exact le_trans hbc hab⟩
  exact List.sorted_insertionSort (fun a b => lessTs b a = false) _

/-! ## Deduplication and ordering: the claims -/

/-- C1: the deduplication loop of `writeToCSV` keeps exactly one record per distinct
`RatingKey` of the input (the kept keys are pairwise distinct and are exactly the keys
occurring in the input), and each kept record is an input record after which no record of
the same key has a greater effective timestamp and before which every record of the same
key has a strictly smaller one: the earliest record attaining the maximum for its key. -/
theorem dedupe_keeps_earliest_max (items : List HistoryItem) :
    ((dedupedItems items).map HistoryItem.RatingKey).Nodup ∧
    (∀ k, k ∈ (dedupedItems items).map HistoryItem.RatingKey ↔
        k ∈ items.map HistoryItem.RatingKey) ∧
    (∀ r ∈ dedupedItems items, ∃ pre post, items = pre ++ r :: post ∧
        (∀ x ∈ pre, x.RatingKey = r.RatingKey → effectiveTs x < effectiveTs r) ∧
        (∀ x ∈ post, x.RatingKey = r.RatingKey → effectiveTs x ≤ effectiveTs r)) := by
  refine ⟨dedupedItems_nodup_keys items, ?_, ?_⟩
  · intro k
    constructor
    · intro hk
      obtain ⟨r, hr, e⟩ := List.mem_map.1 hk
      exact List.mem_map.2 ⟨r, (dedupedItems_firstMax hr).mem, e⟩
    · intro hk
      obtain ⟨y, hy, e⟩ := List.mem_map.1 hk
      rw [dedupedItems_keys, ← e]
      exact (dedupedMap_inv items).2.1 y hy
  · intro r hr
    exact dedupedItems_firstMax hr

/-- C2: whenever `writeToCSV` produces a file, there is a content `out` of `sortedItems`
for the given input (a permitted result of the dedupe-then-sort step, made of input
records) from which the file was written: the records of the file are the header followed
by the rows of `out`, the data row number `i` being the row of the record `out[i]`, and
along `out` the effective timestamp never increases, so the record of each data row has a
timestamp at least that of the record of the next row (and of every later row).  The same
ordering holds for every content `sortedItems` can have for this input. -/
theorem written_rows_descending (rt : Runtime) (createOk : Bool) (filename : String)
    (items : List HistoryItem) (res : CsvOutcome) (rows : List (List String))
    (hw : WritesCSV rt createOk filename items res) (hrows : res.file = some rows) :
    (∃ out : List HistoryItem,
      SortedItems items out ∧
      (∀ r ∈ out, r ∈ items) ∧
      rows = csvHeader :: out.map (csvRow rt) ∧
      (∀ i (h : i < out.length), rows[i + 1]? = some (csvRow rt (out.get ⟨i, h⟩))) ∧
      out.Chain' (fun a b => effectiveTs a ≥ effectiveTs b) ∧
      out.Pairwise (fun a b => effectiveTs a ≥ effectiveTs b)) ∧
    (∀ out : List HistoryItem, SortedItems items out →
      out.Chain' (fun a b => effectiveTs a ≥ effectiveTs b) ∧
      out.Pairwise (fun a b => effectiveTs a ≥ effectiveTs b)) := by
  constructor
  · unfold WritesCSV at hw
    split at hw
    · rw [hw] at hrows; simp at hrows
    · split at hw
      · rw [hw] at hrows; simp at hrows
      · obtain ⟨out, hs, e⟩ := hw
        rw [e] at hrows
        simp only [Option.some.injEq] at hrows
        have hr : rows = csvHeader :: out.map (csvRow rt) := by rw [← hrows]; rfl
        refine ⟨out, hs, ?_, hr, ?_, List.Pairwise.chain' hs.pairwise_ge, hs.pairwise_ge⟩
        · intro r hr'
          exact (dedupedItems_firstMax (hs.1.mem_iff.1 hr')).mem
        · intro i h
          rw [hr, List.getElem?_cons_succ, List.getElem?_map,
            List.getElem?_eq_getElem h]
          rfl
  · intro out hs
    exact ⟨List.Pairwise.chain' hs.pairwise_ge, hs.pairwise_ge⟩

/-- Witness of C2: two records of distinct keys, the later one ranked by its `Date`
(its `Stopped` is 0); the file has its row first. -/
theorem written_rows_descending_witness :
    WritesCSV sampleRuntime true "f.csv" [sampleMovie 1 5 0, sampleMovie 2 0 100]
      ⟨some (csvRecords sampleRuntime [sampleMovie 2 0 100, sampleMovie 1 5 0]), ["f.csv"]⟩ ∧
    (∃ out : List HistoryItem,
      SortedItems [sampleMovie 1 5 0, sampleMovie 2 0 100] out ∧
      (∀ r ∈ out, r ∈ [sampleMovie 1 5 0, sampleMovie 2 0 100]) ∧
      csvRecords sampleRuntime [sampleMovie 2 0 100, sampleMovie 1 5 0]
        = csvHeader :: out.map (csvRow sampleRuntime) ∧
      (∀ i (h : i < out.length),
        (csvRecords sampleRuntime [sampleMovie 2 0 100, sampleMovie 1 5 0])[i + 1]?
          = some (csvRow sampleRuntime (out.get ⟨i, h⟩))) ∧
      out.Chain' (fun a b => effectiveTs a ≥ effectiveTs b) ∧
      out.Pairwise (fun a b => effectiveTs a ≥ effectiveTs b)) ∧
    ¬ SortedItems [sampleMovie 1 5 0, sampleMovie 2 0 100]
        [sampleMovie 1 5 0, sampleMovie 2 0 100] :=
  have hw : WritesCSV sampleRuntime true "f.csv" [sampleMovie 1 5 0, sampleMovie 2 0 100]
      ⟨some (csvRecords sampleRuntime [sampleMovie 2 0 100, sampleMovie 1 5 0]), ["f.csv"]⟩ := by
    unfold WritesCSV
    simp only [List.length_cons, List.length_nil]
    exact ⟨[sampleMovie 2 0 100, sampleMovie 1 5 0], by decide, rfl⟩
  ⟨hw, (written_rows_descending sampleRuntime true "f.csv" _ _ _ hw rfl).1, by decide⟩

/-- C3: when the effective timestamps of the input records are pairwise distinct, every
permutation of the input gives the same sorted sequence, hence the same rows, whichever
iteration order of the map and whichever behaviour of the sort on ties is taken. -/
theorem dedupe_sort_order_independent (rt : Runtime) (l₁ l₂ o₁ o₂ : List HistoryItem)
    (hp : l₁.Perm l₂) (hd : (l₁.map effectiveTs).Nodup)
    (h₁ : SortedItems l₁ o₁) (h₂ : SortedItems l₂ o₂) :
    o₁ = o₂ ∧ csvRecords rt o₁ = csvRecords rt o₂ := by
  have hperm : o₁.Perm o₂ := (h₁.1.trans (dedupedItems_perm hp hd)).trans h₂.1.symm
  have hnd : (o₁.map effectiveTs).Nodup := by
    rw [(h₁.1.map effectiveTs).nodup_iff]
    apply List.Nodup.map_on _ (List.Nodup.of_map _ (dedupedItems_nodup_keys l₁))
    intro a ha b hb e
    exact List.inj_on_of_nodup_map hd (dedupedItems_firstMax ha).mem
      (dedupedItems_firstMax hb).mem e
  have he : o₁ = o₂ := sorted_perm_eq hperm hnd h₁.pairwise_ge h₂.pairwise_ge
  exact ⟨he, by rw [he]⟩

/-- Witness of C3: three records, two of one key, in two different input orders. -/
theorem dedupe_sort_order_independent_witness :
    [sampleMovie 1 5 0, sampleMovie 2 9 0, sampleMovie 1 7 0].Perm
      [sampleMovie 1 7 0, sampleMovie 1 5 0, sampleMovie 2 9 0] ∧
    [sampleMovie 2 9 0, sampleMovie 1 7 0] = [sampleMovie 2 9 0, sampleMovie 1 7 0] ∧
    csvRecords sampleRuntime [sampleMovie 2 9 0, sampleMovie 1 7 0]
      = csvRecords sampleRuntime [sampleMovie 2 9 0, sampleMovie 1 7 0] :=
  ⟨by decide,
   dedupe_sort_order_independent sampleRuntime
    [sampleMovie 1 5 0, sampleMovie 2 9 0, sampleMovie 1 7 0]
    [sampleMovie 1 7 0, sampleMovie 1 5 0, sampleMovie 2 9 0]
    [sampleMovie 2 9 0, sampleMovie 1 7 0] [sampleMovie 2 9 0, sampleMovie 1 7 0]
    (by decide) (by decide) (by decide) (by decide)⟩

/-- C4, as stated, fails: two records of different keys and equal effective timestamp may
come out as `[a, b]`, and the step applied to `[a, b]` may give `[b, a]`. -/
theorem dedupe_sort_not_idempotent_on_ties :
    SortedItems [sampleMovie 1 5 0, sampleMovie 2 5 0] [sampleMovie 1 5 0, sampleMovie 2 5 0] ∧
    SortedItems [sampleMovie 1 5 0, sampleMovie 2 5 0] [sampleMovie 2 5 0, sampleMovie 1 5 0] ∧
    [sampleMovie 2 5 0, sampleMovie 1 5 0] ≠ [sampleMovie 1 5 0, sampleMovie 2 5 0] := by
  decide

/-- C4, amended: for an output `out` of the dedupe-then-sort step, `out` itself is a
permitted result of applying the step to `out`, and it is the result when the map is
visited in insertion order and the sort is stable; every result `out₂` of applying the
step to `out` is a permutation of `out` with the same sequence of effective timestamps, is
again a permitted result for the original input, and equals `out` when the effective
timestamps of `out` are pairwise distinct. -/
theorem dedupe_sort_idempotent_up_to_ties (items out out₂ : List HistoryItem)
    (h₁ : SortedItems items out) (h₂ : SortedItems out out₂) :
    SortedItems out out ∧ sortedItemsStable out = out ∧
    out₂.Perm out ∧ out₂.map effectiveTs = out.map effectiveTs ∧
    SortedItems items out₂ ∧
    ((out.map effectiveTs).Nodup → out₂ = out) := by
  have hd : dedupedItems out = out := dedupedItems_of_nodup_keys out h₁.nodup_keys
  have hp : out₂.Perm out := by
    have := h₂.1; rwa [hd] at this
  refine ⟨⟨by rw [hd], h₁.2⟩, ?_, hp, ?_, ⟨hp.trans h₁.1, h₂.2⟩, ?_⟩
  · unfold sortedItemsStable
    rw [hd]
    exact List.Sorted.insertionSort_eq h₁.2
  · exact sorted_perm_ts_eq hp h₂.pairwise_ge h₁.pairwise_ge
  · intro hnd
    exact (sorted_perm_eq hp.symm hnd h₁.pairwise_ge h₂.pairwise_ge).symm

/-- Witness of C4 (amended): three records, two of equal timestamp, re-sorted. -/
theorem dedupe_sort_idempotent_up_to_ties_witness :
    SortedItems [sampleMovie 1 5 0, sampleMovie 2 5 0, sampleMovie 1 3 0]
      [sampleMovie 1 5 0, sampleMovie 2 5 0] ∧
    SortedItems [sampleMovie 1 5 0, sampleMovie 2 5 0]
      [sampleMovie 2 5 0, sampleMovie 1 5 0] ∧
    [sampleMovie 2 5 0, sampleMovie 1 5 0].map effectiveTs
      = [sampleMovie 1 5 0, sampleMovie 2 5 0].map effectiveTs :=
  ⟨by decide, by decide,
   (dedupe_sort_idempotent_up_to_ties
      [sampleMovie 1 5 0, sampleMovie 2 5 0, sampleMovie 1 3 0]
      [sampleMovie 1 5 0, sampleMovie 2 5 0] [sampleMovie 2 5 0, sampleMovie 1 5 0]
      (by decide) (by decide)).2.2.2.1⟩

/-! ## Rows and `toString`: the claims -/

/-- C5: in the row built for a record, under the header names `title`, `season_number`
and `episode_number`: for media type `episode` the title is `GrandparentTitle` when that
is non-empty and `Title` otherwise, the season is `toString(ParentMediaIndex)` and the
episode is `toString(MediaIndex)`; for every other media type the title is `Title` and
season and episode are empty, whatever the two index fields hold. -/
theorem row_title_season_episode (rt : Runtime) (item : HistoryItem) :
    (csvHeader[3]? = some "title" ∧ csvHeader[5]? = some "season_number" ∧
      csvHeader[6]? = some "episode_number") ∧
    (item.MediaType = "episode" →
      (csvRow rt item)[3]? =
        some (if item.GrandparentTitle ≠ "" then item.GrandparentTitle else item.Title) ∧
      (csvRow rt item)[5]? = some (toString rt.floatConv item.ParentMediaIndex) ∧
      (csvRow rt item)[6]? = some (toString rt.floatConv item.MediaIndex)) ∧
    (item.MediaType ≠ "episode" →
      (csvRow rt item)[3]? = some item.Title ∧
      (csvRow rt item)[5]? = some "" ∧
      (csvRow rt item)[6]? = some "") := by
  refine ⟨⟨rfl, rfl, rfl⟩, ?_, ?_⟩
  · intro h
    simp [csvRow, displayTitle, seasonNum, episodeNum, h]
  · intro h
    simp [csvRow, displayTitle, seasonNum, episodeNum, h]

/-- Witness of C5: an episode without show title, and a movie carrying index values. -/
theorem row_title_season_episode_witness :
    ((csvRow sampleRuntime (sampleEpisode 1 "" (Value.int 2) (Value.str "7")))[3]? =
        some "Pilot" ∧
      (csvRow sampleRuntime (sampleEpisode 1 "" (Value.int 2) (Value.str "7")))[5]? =
        some "2" ∧
      (csvRow sampleRuntime (sampleEpisode 1 "" (Value.int 2) (Value.str "7")))[6]? =
        some "7") ∧
    ((csvRow sampleRuntime
        { sampleMovie 1 5 0 with MediaIndex := Value.int 4, ParentMediaIndex := Value.int 9 })[3]?
        = some "Movie" ∧
      (csvRow sampleRuntime
        { sampleMovie 1 5 0 with MediaIndex := Value.int 4, ParentMediaIndex := Value.int 9 })[5]?
        = some "" ∧
      (csvRow sampleRuntime
        { sampleMovie 1 5 0 with MediaIndex := Value.int 4, ParentMediaIndex := Value.int 9 })[6]?
        = some "") :=
  ⟨(row_title_season_episode sampleRuntime
      (sampleEpisode 1 "" (Value.int 2) (Value.str "7"))).2.1 (by decide),
   (row_title_season_episode sampleRuntime
      { sampleMovie 1 5 0 with MediaIndex := Value.int 4, ParentMediaIndex := Value.int 9 }).2.2
      (by decide)⟩

theorem wrapInt_range (z : Int) : -(2 ^ 63) ≤ wrapInt z ∧ wrapInt z < 2 ^ 63 := by
  unfold wrapInt
  have h1 := Int.emod_nonneg (z + 2 ^ 63) (by norm_num : (2 ^ 64 : Int) ≠ 0)
  have h2 := Int.emod_lt_of_pos (z + 2 ^ 63) (by norm_num : (0 : Int) < 2 ^ 64)
  constructor <;> omega

/-- The quotient taken by `floatToInt` is the integer part in the specification's sense. -/
theorem tdiv_eq_truncTowardZero (q : ℚ) : q.num.tdiv q.den = truncTowardZero q := by
  unfold truncTowardZero
  by_cases h : 0 ≤ q
  · rw [if_pos h, Rat.floor_def]
    exact Int.tdiv_eq_ediv (Rat.num_nonneg.2 h) (Int.ofNat_nonneg _)
  · rw [if_neg h]
    have hneg : 0 ≤ -q := by linarith [not_le.1 h]
    have hn : 0 ≤ -q.num := by
      have := Rat.num_nonneg.2 hneg
      simpa using this
    have h1 : q.num.tdiv q.den = -((-q.num).tdiv q.den) := by
      rw [Int.neg_tdiv, neg_neg]
    have h2 : ⌈q⌉ = -⌊-q⌋ := by rw [Int.floor_neg, neg_neg]
    rw [h1, h2, Rat.floor_def, Rat.neg_num, Rat.neg_den,
      Int.tdiv_eq_ediv hn (Int.ofNat_nonneg _)]

theorem floatToInt_in_range (conv : ℚ → Int) (q : ℚ)
    (h₁ : -(2 ^ 63) ≤ truncTowardZero q) (h₂ : truncTowardZero q < 2 ^ 63) :
    floatToInt conv q = truncTowardZero q := by
  unfold floatToInt
  simp only [tdiv_eq_truncTowardZero]
  rw [if_pos ⟨h₁, h₂⟩]

theorem Itoa_length_le (t : Int) (h₁ : -(2 ^ 63) ≤ t) (h₂ : t < 2 ^ 63) :
    (Itoa t).length ≤ 20 := by
  cases t with
  | ofNat m =>
    have hm : m < 10 ^ 19 := by
      have : (m : Int) < 2 ^ 63 := h₂
      omega
    have := Nat.repr_length m 19 (by norm_num) hm
    simp only [Itoa]
    omega
  | negSucc m =>
    have hm : m + 1 < 10 ^ 19 := by
      have : -(2 ^ 63) ≤ Int.negSucc m := h₁
      rw [Int.negSucc_eq] at this
      omega
    have := Nat.repr_length (m + 1) 19 (by norm_num) hm
    simp only [Itoa, String.length_append]
    have h1 : "-".length = 1 := by decide
    omega

/-- C6, as stated, fails: the double `1e20` has integer part `100000000000000000000`,
whose decimal form has 21 characters, but on no platform does `toString` return it: the
conversion `int(val)` leaves the range of `int`. -/
theorem toString_float64_out_of_range :
    truncTowardZero 100000000000000000000 = 100000000000000000000 ∧
    Itoa 100000000000000000000 = "100000000000000000000" ∧
    ¬ ∃ conv : ℚ → Int,
        toString conv (Value.float64 100000000000000000000) = "100000000000000000000" := by
  have ht : truncTowardZero 100000000000000000000 = 100000000000000000000 := by
    unfold truncTowardZero
    rw [if_pos (by norm_num)]
    exact Int.floor_ofNat _
  refine ⟨ht, by decide, ?_⟩
  rintro ⟨conv, h⟩
  have hf : floatToInt conv 100000000000000000000
      = wrapInt (conv 100000000000000000000) := by
    unfold floatToInt
    simp only [tdiv_eq_truncTowardZero, ht]
    rw [if_neg (by norm_num)]
  have hr := wrapInt_range (conv 100000000000000000000)
  have hl := Itoa_length_le _ hr.1 hr.2
  simp only [toString, hf] at h
  rw [h] at hl
  revert hl
  decide

/-- C6, amended: `toString` maps the absent value to the empty string, every string to
itself, every `int` to its decimal form, and every `float64` whose integer part lies in
the range of `int` (from `-2^63` up to `2^63 - 1`) to the decimal form of that integer
part, the fraction being discarded toward zero; so 3 gives "3", 3.9 gives "3", -3.9 gives
"-3" and the string "7" gives "7". -/
theorem toString_spec (conv : ℚ → Int) :
    toString conv Value.null = "" ∧
    (∀ s : String, toString conv (Value.str s) = s) ∧
    (∀ n : Int, toString conv (Value.int n) = Itoa n) ∧
    (∀ q : ℚ, -(2 ^ 63) ≤ truncTowardZero q → truncTowardZero q < 2 ^ 63 →
        toString conv (Value.float64 q) = Itoa (truncTowardZero q)) ∧
    toString conv (Value.int 3) = "3" ∧
    toString conv (Value.float64 3) = "3" ∧
    toString conv (Value.float64 (39 / 10)) = "3" ∧
    toString conv (Value.float64 (-39 / 10)) = "-3" ∧
    toString conv (Value.str "7") = "7" := by
  have hq : ∀ q : ℚ, -(2 ^ 63) ≤ truncTowardZero q → truncTowardZero q < 2 ^ 63 →
      toString conv (Value.float64 q) = Itoa (truncTowardZero q) := by
    intro q h₁ h₂
    simp only [toString, floatToInt_in_range conv q h₁ h₂]
  have t3 : truncTowardZero 3 = 3 := by
    unfold truncTowardZero
    rw [if_pos (by norm_num)]
    exact Int.floor_ofNat _
  have t39 : truncTowardZero (39 / 10) = 3 := by
    unfold truncTowardZero
    rw [if_pos (by norm_num), Int.floor_eq_iff]
    constructor <;> norm_num
  have tm39 : truncTowardZero (-39 / 10) = -3 := by
    unfold truncTowardZero
    rw [if_neg (by norm_num), Int.ceil_eq_iff]
    constructor <;> norm_num
  have i3 : Itoa 3 = "3" := by decide
  refine ⟨rfl, fun _ => rfl, fun _ => rfl, hq, i3, ?_, ?_, ?_, rfl⟩
  · rw [hq 3 (by rw [t3]; norm_num) (by rw [t3]; norm_num), t3]; decide
  · rw [hq _ (by rw [t39]; norm_num) (by rw [t39]; norm_num), t39]; decide
  · rw [hq _ (by rw [tm39]; norm_num) (by rw [tm39]; norm_num), tm39]; decide

/-- Witness of C6 (amended): the double nearest to 3.9, whose integer part 3 is in range. -/
theorem toString_spec_witness :
    toString sampleRuntime.floatConv
        (Value.float64 (8782019273372467 / 2251799813685248)) = Itoa 3 := by
  have t : truncTowardZero (8782019273372467 / 2251799813685248) = 3 := by
    unfold truncTowardZero
    rw [if_pos (by norm_num), Int.floor_eq_iff]
    constructor <;> norm_num
  have h := (toString_spec sampleRuntime.floatConv).2.2.2.1
    (8782019273372467 / 2251799813685248) (by rw [t]; norm_num) (by rw [t]; norm_num)
  rw [t] at h
  exact h

/-! ## The pagination loop: single passes -/

theorem pageLoop_fail (src : PageSource) (dryRun : Bool) (sid mType : String) (fuel : Nat)
    (st : LoopState) (h : src mType st.requests.length st.startOffset = none) :
    pageLoop src dryRun sid mType (fuel + 1) st
      = some { st with requests := st.requests ++ [st.startOffset] } := by
  simp [pageLoop, loopBody, h]

theorem pageLoop_zero (src : PageSource) (dryRun : Bool) (sid mType : String) (fuel : Nat)
    (st : LoopState) (page : Page)
    (h : src mType st.requests.length st.startOffset = some page)
    (h0 : page.recordsFiltered = 0) :
    pageLoop src dryRun sid mType (fuel + 1) st
      = some { st with requests := st.requests ++ [st.startOffset] } := by
  cases dryRun <;> simp [pageLoop, loopBody, h, h0]

theorem pageLoop_page (src : PageSource) (sid mType : String) (fuel : Nat)
    (st : LoopState) (page : Page)
    (h : src mType st.requests.length st.startOffset = some page)
    (h0 : page.recordsFiltered ≠ 0) :
    pageLoop src false sid mType (fuel + 1) st
      = if ((st.categorized ++ page.items).length : Int) < page.recordsFiltered
            ∧ pageSize ≤ page.items.length
        then pageLoop src false sid mType fuel (st.afterPage sid mType page)
        else some { st.afterPage sid mType page with startOffset := st.startOffset } := by
  by_cases hc : ((st.categorized ++ page.items).length : Int) < page.recordsFiltered
      ∧ pageSize ≤ page.items.length
  · rw [if_pos hc]
    have hc' : ¬ ((((st.categorized ++ page.items).length : Nat) : Int) ≥ page.recordsFiltered
        ∨ page.items.length < pageSize) := by
      rintro (h1 | h1)
      · exact absurd hc.1 (not_lt.2 h1)
      · exact absurd hc.2 (not_le.2 h1)
    simp only [pageLoop, loopBody, h, h0]
    simp only [Bool.false_eq_true, if_false, hc']
    simp [LoopState.afterPage]
  · rw [if_neg hc]
    have hc' : ((((st.categorized ++ page.items).length : Nat) : Int) ≥ page.recordsFiltered
        ∨ page.items.length < pageSize) := by
      by_contra hn
      rw [not_or] at hn
      exact hc ⟨not_le.1 hn.1, not_lt.1 hn.2⟩
    simp only [pageLoop, loopBody, h, h0]
    simp only [Bool.false_eq_true, if_false, hc']
    simp [LoopState.afterPage]

/-! ## The pagination loop: runs of pages -/

theorem pageLoop_fullPages (src : PageSource) (sid mType : String) :
    ∀ (pages : List Page) (st : LoopState) (fuel : Nat),
      FullPages src sid mType st pages →
      pageLoop src false sid mType (fuel + pages.length) st
        = pageLoop src false sid mType fuel (st.afterPages sid mType pages)
  | [], _, _, _ => rfl
  | p :: ps, st, fuel, h => by
    obtain ⟨h1, h2, h3, h4, h5⟩ := h
    have e : fuel + (p :: ps).length = (fuel + ps.length) + 1 := by
      simp only [List.length_cons]; omega
    rw [e, pageLoop_page src sid mType _ st p h1 h2, if_pos ⟨h3, h4⟩]
    exact pageLoop_fullPages src sid mType ps _ fuel h5

theorem afterPages_categorized (sid mType : String) :
    ∀ (pages : List Page) (st : LoopState),
      (st.afterPages sid mType pages).categorized
        = st.categorized ++ (pages.map Page.items).flatten
  | [], st => by simp [LoopState.afterPages]
  | p :: ps, st => by
    simp only [LoopState.afterPages, List.map_cons, List.flatten_cons]
    rw [afterPages_categorized sid mType ps]
    simp [LoopState.afterPage]

theorem afterPages_globalHistory (sid mType : String) :
    ∀ (pages : List Page) (st : LoopState),
      (st.afterPages sid mType pages).globalHistory
        = st.globalHistory ++ (pages.map Page.items).flatten
  | [], st => by simp [LoopState.afterPages]
  | p :: ps, st => by
    simp only [LoopState.afterPages, List.map_cons, List.flatten_cons]
    rw [afterPages_globalHistory sid mType ps]
    simp [LoopState.afterPage]

theorem afterPages_startOffset (sid mType : String) :
    ∀ (pages : List Page) (st : LoopState),
      (st.afterPages sid mType pages).startOffset = st.startOffset + pageSize * pages.length
  | [], st => by simp [LoopState.afterPages]
  | p :: ps, st => by
    simp only [LoopState.afterPages, List.length_cons]
    rw [afterPages_startOffset sid mType ps]
    simp only [LoopState.afterPage, Nat.mul_succ]
    omega

theorem afterPages_requests (sid mType : String) :
    ∀ (pages : List Page) (st : LoopState),
      (st.afterPages sid mType pages).requests
        = st.requests ++ (List.range pages.length).map (fun i => st.startOffset + pageSize * i)
  | [], st => by simp [LoopState.afterPages]
  | p :: ps, st => by
    simp only [LoopState.afterPages, List.length_cons]
    rw [afterPages_requests sid mType ps, List.range_succ_eq_map]
    simp only [LoopState.afterPage, List.map_cons, List.map_map, List.append_assoc,
      List.singleton_append, Nat.mul_zero, Nat.add_zero]
    congr 2
    apply List.map_congr_left
    intro i _
    simp only [Function.comp, Nat.mul_succ]
    omega

theorem fullPages_of_indexed (src : PageSource) (sid mType : String) :
    ∀ (pages : List Page) (st : LoopState),
      (∀ i (h : i < pages.length),
        src mType (st.requests.length + i) (st.startOffset + pageSize * i)
          = some (pages.get ⟨i, h⟩)) →
      (∀ i (h : i < pages.length),
        (pages.get ⟨i, h⟩).recordsFiltered ≠ 0 ∧
        pageSize ≤ (pages.get ⟨i, h⟩).items.length ∧
        ((st.categorized.length + ((pages.take (i + 1)).map Page.items).flatten.length : Nat)
            : Int) < (pages.get ⟨i, h⟩).recordsFiltered) →
      FullPages src sid mType st pages
  | [], _, _, _ => trivial
  | p :: ps, st, hsrc, hfull => by
    have s0 := hsrc 0 (by simp)
    have f0 := hfull 0 (by simp)
    simp only [List.get_eq_getElem, List.getElem_cons_zero, Nat.mul_zero, Nat.add_zero,
      Nat.zero_add, List.take_succ_cons, List.take_zero, List.map_cons, List.map_nil,
      List.flatten_cons, List.flatten_nil, List.append_nil] at s0 f0
    refine ⟨s0, f0.1, ?_, f0.2.1, ?_⟩
    · rw [List.length_append]; exact f0.2.2
    · apply fullPages_of_indexed src sid mType ps
      · intro i h
        have := hsrc (i + 1) (by simp only [List.length_cons]; omega)
        simp only [List.get_eq_getElem, List.getElem_cons_succ] at this
        simp only [LoopState.afterPage, List.length_append, List.length_singleton,
          List.get_eq_getElem]
        rw [← this]
        congr 1
        · omega
        · simp only [Nat.mul_succ]; omega
      · intro i h
        have := hfull (i + 1) (by simp only [List.length_cons]; omega)
        simp only [List.get_eq_getElem, List.getElem_cons_succ, List.take_succ_cons,
          List.map_cons, List.flatten_cons, List.length_append] at this
        simp only [LoopState.afterPage, List.length_append, List.get_eq_getElem]
        refine ⟨this.1, this.2.1, ?_⟩
        have h3 := this.2.2
        rw [← Nat.add_assoc] at h3
        exact h3

theorem listSource_loop (L : List HistoryItem) (sid mType : String) (g : List HistoryItem) :
    ∀ (m k fuel : Nat) (b : List String),
      100 * k < L.length → L.length ≤ 100 * (k + m) → m ≤ fuel →
      ∃ st, pageLoop (listSource L) false sid mType fuel (listState L g k b) = some st ∧
        st.categorized = L ∧ st.globalHistory = g ++ L ∧
        st.requests = (List.range ((L.length + 99) / 100)).map (fun i => 100 * i) := by
  intro m
  induction m with
  | zero => intro k fuel b h1 h2 _; omega
  | succ m ih =>
    intro k fuel b h1 h2 h3
    obtain ⟨f, rfl⟩ : ∃ f, fuel = f + 1 := ⟨fuel - 1, by omega⟩
    have hreply : listSource L mType (listState L g k b).requests.length
        (listState L g k b).startOffset
        = some ⟨(L.drop (100 * k)).take 100, L.length⟩ := rfl
    have hN0 : ((⟨(L.drop (100 * k)).take 100, L.length⟩ : Page).recordsFiltered) ≠ 0 := by
      simp only [ne_eq, Int.natCast_eq_zero]; omega
    rw [pageLoop_page _ sid mType f _ _ hreply hN0]
    have hcat : L.take (100 * k) ++ (L.drop (100 * k)).take 100 = L.take (100 * (k + 1)) := by
      rw [Nat.mul_succ, List.take_add]
    have hreq : (List.range k).map (fun i => 100 * i) ++ [100 * k]
        = (List.range (k + 1)).map (fun i => 100 * i) := by
      rw [List.range_succ, List.map_append]; rfl
    by_cases hle : L.length ≤ 100 * (k + 1)
    · have hc : ¬ (((((listState L g k b).categorized
              ++ (L.drop (100 * k)).take 100).length : Nat) : Int)
            < (L.length : Int) ∧ pageSize ≤ ((L.drop (100 * k)).take 100).length) := by
        rintro ⟨hc, -⟩
        simp only [listState] at hc
        rw [hcat, List.take_of_length_le hle] at hc
        exact lt_irrefl _ hc
      rw [if_neg hc]
      refine ⟨_, rfl, ?_, ?_, ?_⟩
      · simp only [LoopState.afterPage, listState]
        rw [hcat, List.take_of_length_le hle]
      · simp only [LoopState.afterPage, listState]
        rw [List.append_assoc, hcat, List.take_of_length_le hle]
      · have hq : (L.length + 99) / 100 = k + 1 := by omega
        simp only [LoopState.afterPage, listState]
        rw [hq, hreq]
    · have hgt : 100 * (k + 1) < L.length := by omega
      have hc : ((((listState L g k b).categorized
              ++ (L.drop (100 * k)).take 100).length : Nat) : Int)
            < (L.length : Int) ∧ pageSize ≤ ((L.drop (100 * k)).take 100).length := by
        constructor
        · simp only [listState]
          rw [hcat, List.length_take]
          have : min (100 * (k + 1)) L.length < L.length := by omega
          exact_mod_cast this
        · rw [List.length_take, List.length_drop]
          unfold pageSize
          omega
      rw [if_pos hc]
      have hst : (listState L g k b).afterPage sid mType
            ⟨(L.drop (100 * k)).take 100, L.length⟩
          = listState L g (k + 1) (b ++ [batchPath sid mType (100 * k)]) := by
        simp only [LoopState.afterPage, listState, hcat, hreq, List.append_assoc, pageSize,
          Nat.mul_succ]
      rw [hst]
      exact ih (k + 1) f _ hgt (by omega) (by omega)

/-! ## The pagination loop: the claims -/

/-- C7: against a source serving a fixed list of `N ≥ 1` records (a request at offset `o`
is answered with the records at positions `o` to `min (o + 100) N` and
`recordsFiltered = N`), a non-dry-run pagination of one category with enough fuel ends,
having issued exactly `⌈N / 100⌉ = (N + 99) / 100` requests at offsets 0, 100, 200, ...,
with the category collection equal to the list and the global collection extended by it. -/
theorem fixed_list_pagination (L : List HistoryItem) (sid mType : String)
    (g : List HistoryItem) (fuel : Nat)
    (hN : 1 ≤ L.length) (hfuel : (L.length + 99) / 100 ≤ fuel) :
    ∃ r, runCategory (listSource L) false sid mType fuel g = some r ∧
      r.requests = (List.range ((L.length + 99) / 100)).map (fun i => 100 * i) ∧
      r.requests.length = (L.length + 99) / 100 ∧
      r.categorized = L ∧
      r.globalHistory = g ++ L := by
  obtain ⟨st, h1, h2, h3, h4⟩ :=
    listSource_loop L sid mType g ((L.length + 99) / 100) 0 fuel []
      (by omega) (by omega) hfuel
  have hinit : listState L g 0 [] = LoopState.initial g := by
    simp [LoopState.initial, listState]
  rw [hinit] at h1
  have hrun : runCategory (listSource L) false sid mType fuel g
      = some { requests := st.requests, categorized := st.categorized,
               globalHistory := st.globalHistory, batchFiles := st.batchFiles,
               exported := exportCall false sid mType st.categorized } := by
    simp only [runCategory, h1]
  refine ⟨_, hrun, h4, ?_, h2, h3⟩
  show st.requests.length = _
  rw [h4]; simp

/-- Witness of C7: 150 records are fetched in two pages, of 100 then 50 records. -/
theorem fixed_list_pagination_witness :
    (1 ≤ sampleRecords150.length ∧ (sampleRecords150.length + 99) / 100 ≤ 2) ∧
    ((listSource sampleRecords150 "movie" 0 0).map (fun p => p.items.length) = some 100 ∧
     (listSource sampleRecords150 "movie" 1 100).map (fun p => p.items.length) = some 50) ∧
    ∃ r, runCategory (listSource sampleRecords150) false "s" "movie" 2 [] = some r ∧
      r.requests = [0, 100] ∧ r.requests.length = 2 ∧
      r.categorized = sampleRecords150 ∧ r.globalHistory = sampleRecords150 := by
  have hlen : sampleRecords150.length = 150 := by simp [sampleRecords150]
  refine ⟨by omega, ?_, ?_⟩
  · simp [listSource, pageSize, List.length_take, List.length_drop, hlen]
  · obtain ⟨r, h1, h2, h3, h4, h5⟩ :=
      fixed_list_pagination sampleRecords150 "s" "movie" [] 2
        (by omega) (by omega)
    rw [hlen] at h2 h3
    exact ⟨r, h1, h2.trans (by decide), h3, h4, by simpa using h5⟩

/-- C8: in a non-dry run, after a successfully fetched page reporting a nonzero total, the
loop has appended the page's items to the category (and global) collection, and it goes
round again with the offset advanced by `pageSize` exactly when the accumulated count is
strictly below the reported total and the page carries at least `pageSize` items;
otherwise the category ends there, the offset unchanged. -/
theorem page_continue_iff (src : PageSource) (sid mType : String) (fuel : Nat)
    (st : LoopState) (page : Page)
    (hreply : src mType st.requests.length st.startOffset = some page)
    (htotal : page.recordsFiltered ≠ 0) :
    pageLoop src false sid mType (fuel + 1) st
      = if ((st.categorized ++ page.items).length : Int) < page.recordsFiltered
            ∧ pageSize ≤ page.items.length
        then pageLoop src false sid mType fuel
          { startOffset := st.startOffset + pageSize
            categorized := st.categorized ++ page.items
            globalHistory := st.globalHistory ++ page.items
            requests := st.requests ++ [st.startOffset]
            batchFiles := st.batchFiles ++ [batchPath sid mType st.startOffset] }
        else some
          { startOffset := st.startOffset
            categorized := st.categorized ++ page.items
            globalHistory := st.globalHistory ++ page.items
            requests := st.requests ++ [st.startOffset]
            batchFiles := st.batchFiles ++ [batchPath sid mType st.startOffset] } :=
  pageLoop_page src sid mType fuel st page hreply htotal

/-- Witness of C8: a single short page (one item, total one) ends the category with the
item appended and the offset unchanged. -/
theorem page_continue_iff_witness :
    pageLoop (fun _ _ _ => some ⟨[sampleMovie 1 5 0], 1⟩) false "s" "movie" 1
        (LoopState.initial [])
      = some { startOffset := 0, categorized := [sampleMovie 1 5 0],
               globalHistory := [sampleMovie 1 5 0], requests := [0],
               batchFiles := ["tmp/s/movie/batch_0.json"] } :=
  (page_continue_iff (fun _ _ _ => some ⟨[sampleMovie 1 5 0], 1⟩) "s" "movie" 0
    (LoopState.initial []) ⟨[sampleMovie 1 5 0], 1⟩ rfl (by decide)).trans
    (by rw [if_neg (by decide)]; rfl)

theorem exportCall_of_ne_nil (sid scope : String) (items : List HistoryItem)
    (h : items ≠ []) : exportCall false sid scope items = some (csvName sid scope, items) := by
  have : 0 < items.length := List.length_pos.2 h
  simp [exportCall, this]

theorem writesCSV_of_ne_nil (rt : Runtime) (filename : String) (items : List HistoryItem)
    (res : CsvOutcome) (h : items ≠ []) (hw : WritesCSV rt true filename items res) :
    ∃ out, SortedItems items out ∧ res.file = some (csvRecords rt out) := by
  have hl : ¬ items.length = 0 := fun e => h (List.length_eq_zero.1 e)
  unfold WritesCSV at hw
  rw [if_neg hl, if_neg (by simp)] at hw
  obtain ⟨out, hs, e⟩ := hw
  exact ⟨out, hs, by rw [e]⟩

/-- C9: if the first `k - 1` fetches of a category succeed with the pages `pages` (each
reporting a nonzero total above the count accumulated so far and carrying at least
`pageSize` items) and the `k`-th fetch fails in transport, then with enough fuel the
category's pagination ends having issued exactly `k` requests, at offsets
`0, pageSize, ..., pageSize * (k - 1)`; the category collection is the concatenation of
the items of `pages` and the global collection is extended by it; and when that collection
is non-empty `writeToCSV` is called on it, any successful call writing the header and the
rows of its deduplicated, sorted records. -/
theorem transport_failure_keeps_pages (src : PageSource) (sid mType : String)
    (g : List HistoryItem) (pages : List Page) (fuel : Nat)
    (hsrc : ∀ i (h : i < pages.length),
      src mType i (pageSize * i) = some (pages.get ⟨i, h⟩))
    (hfull : ∀ i (h : i < pages.length),
      (pages.get ⟨i, h⟩).recordsFiltered ≠ 0 ∧
      pageSize ≤ (pages.get ⟨i, h⟩).items.length ∧
      ((((pages.take (i + 1)).map Page.items).flatten.length : Nat) : Int)
        < (pages.get ⟨i, h⟩).recordsFiltered)
    (hfail : src mType pages.length (pageSize * pages.length) = none)
    (hfuel : pages.length + 1 ≤ fuel) :
    ∃ r, runCategory src false sid mType fuel g = some r ∧
      r.requests = (List.range (pages.length + 1)).map (fun i => pageSize * i) ∧
      r.categorized = (pages.map Page.items).flatten ∧
      r.globalHistory = g ++ (pages.map Page.items).flatten ∧
      (r.categorized ≠ [] →
        r.exported = some (csvName sid mType, r.categorized) ∧
        ∀ (rt : Runtime) (res : CsvOutcome),
          WritesCSV rt true (csvName sid mType) r.categorized res →
          ∃ out, SortedItems r.categorized out ∧ res.file = some (csvRecords rt out)) := by
  have hfp : FullPages src sid mType (LoopState.initial g) pages := by
    apply fullPages_of_indexed
    · intro i h
      simp only [LoopState.initial, List.length_nil, Nat.zero_add]
      exact hsrc i h
    · intro i h
      simp only [LoopState.initial, List.length_nil, Nat.zero_add]
      exact hfull i h
  obtain ⟨f, rfl⟩ : ∃ f, fuel = (f + 1) + pages.length :=
    ⟨fuel - pages.length - 1, by omega⟩
  have hreq := afterPages_requests sid mType pages (LoopState.initial g)
  have hoff := afterPages_startOffset sid mType pages (LoopState.initial g)
  have hcat := afterPages_categorized sid mType pages (LoopState.initial g)
  have hglob := afterPages_globalHistory sid mType pages (LoopState.initial g)
  simp only [LoopState.initial, List.nil_append, Nat.zero_add] at hreq hoff hcat hglob
  have hnone : src mType ((LoopState.initial g).afterPages sid mType pages).requests.length
      ((LoopState.initial g).afterPages sid mType pages).startOffset = none := by
    simp only [LoopState.initial]
    rw [hreq, hoff, List.length_map, List.length_range]
    exact hfail
  have hloop := pageLoop_fullPages src sid mType pages (LoopState.initial g) (f + 1) hfp
  rw [pageLoop_fail src false sid mType f _ hnone] at hloop
  have hrun : runCategory src false sid mType (f + 1 + pages.length) g
      = some
        { requests := ((LoopState.initial g).afterPages sid mType pages).requests
            ++ [((LoopState.initial g).afterPages sid mType pages).startOffset],
          categorized := ((LoopState.initial g).afterPages sid mType pages).categorized,
          globalHistory := ((LoopState.initial g).afterPages sid mType pages).globalHistory,
          batchFiles := ((LoopState.initial g).afterPages sid mType pages).batchFiles,
          exported := exportCall false sid mType
            ((LoopState.initial g).afterPages sid mType pages).categorized } := by
    simp only [runCategory, hloop]
  refine ⟨_, hrun, ?_, ?_, ?_, ?_⟩
  · simp only [LoopState.initial]
    rw [hreq, hoff, List.range_succ, List.map_append]
    rfl
  · simp only [LoopState.initial]; exact hcat
  · simp only [LoopState.initial]; exact hglob
  · intro hne
    exact ⟨exportCall_of_ne_nil sid mType _ hne,
      fun rt res hw => writesCSV_of_ne_nil rt _ _ res hne hw⟩

/-- Witness of C9 with `k = 2`: page 1 (100 records, total 150) succeeds, page 2 fails;
two requests are issued and the category keeps page 1's records and exports them. -/
theorem transport_failure_keeps_pages_witness :
    failingSource "movie" 1 (pageSize * 1) = none ∧
    ∃ r, runCategory failingSource false "s" "movie" 2 [] = some r ∧
      r.requests = [0, 100] ∧
      r.categorized = sampleRecords150.take 100 ∧
      r.exported = some (csvName "s" "movie", sampleRecords150.take 100) := by
  have hlen : (sampleRecords150.take 100).length = 100 := by simp [sampleRecords150]
  obtain ⟨r, h1, h2, h3, -, h5⟩ :=
    transport_failure_keeps_pages failingSource "s" "movie" []
      [⟨sampleRecords150.take 100, 150⟩] 2
      (by
        intro i h
        have hi : i = 0 := by simpa using h
        subst hi; rfl)
      (by
        intro i h
        have hi : i = 0 := by simpa using h
        subst hi
        simp only [List.get_eq_getElem, List.getElem_cons_zero, List.take_succ_cons,
          List.take_zero, List.map_cons, List.map_nil, List.flatten_cons, List.flatten_nil,
          List.append_nil, hlen, pageSize]
        decide)
      rfl (by decide)
  have h3' : r.categorized = sampleRecords150.take 100 := by
    rw [h3]; simp
  have hne : r.categorized ≠ [] := by
    intro e
    rw [h3', ← List.length_eq_zero, hlen] at e
    exact absurd e (by decide)
  refine ⟨rfl, r, h1, h2.trans (by decide), h3', ?_⟩
  rw [(h5 hne).1, h3']

/-- C10: a page reporting `recordsFiltered = 0`, whatever items it carries, ends the
category at that page, dry run or not: the request is the last one and neither the
category nor the global collection (nor the offset or the snapshot list) changes; when it
is the first page of the category, exactly one request (offset 0) is issued, the category
collection is empty, the global collection is as before and nothing is exported. -/
theorem zero_total_ends_category (src : PageSource) (dryRun : Bool) (sid mType : String)
    (fuel : Nat) (st : LoopState) (page : Page)
    (hreply : src mType st.requests.length st.startOffset = some page)
    (hzero : page.recordsFiltered = 0) :
    pageLoop src dryRun sid mType (fuel + 1) st
      = some { startOffset := st.startOffset, categorized := st.categorized,
               globalHistory := st.globalHistory,
               requests := st.requests ++ [st.startOffset],
               batchFiles := st.batchFiles } ∧
    ∀ g, st = LoopState.initial g →
      runCategory src dryRun sid mType (fuel + 1) g
        = some { requests := [0], categorized := [], globalHistory := g, batchFiles := [],
                 exported := none } := by
  have h := pageLoop_zero src dryRun sid mType fuel st page hreply hzero
  refine ⟨h, ?_⟩
  intro g hg
  subst hg
  simp only [runCategory, h]
  cases dryRun <;> simp [LoopState.initial, exportCall]

/-- Witness of C10: a first page reporting total 0 while carrying a record. -/
theorem zero_total_ends_category_witness :
    runCategory (fun _ _ _ => some ⟨[sampleMovie 1 5 0], 0⟩) false "s" "movie" 1
        [sampleMovie 9 9 9]
      = some { requests := [0], categorized := [], globalHistory := [sampleMovie 9 9 9],
               batchFiles := [], exported := none } :=
  (zero_total_ends_category (fun _ _ _ => some ⟨[sampleMovie 1 5 0], 0⟩) false "s" "movie" 0
    (LoopState.initial [sampleMovie 9 9 9]) ⟨[sampleMovie 1 5 0], 0⟩ rfl rfl).2
    [sampleMovie 9 9 9] rfl

/-! ## Dry run and termination: the claims -/

theorem pageLoop_dry (src : PageSource) (sid mType : String) (fuel : Nat) (st : LoopState) :
    pageLoop src true sid mType (fuel + 1) st
      = some { st with requests := st.requests ++ [st.startOffset] } := by
  cases h : src mType st.requests.length st.startOffset with
  | none => exact pageLoop_fail src true sid mType fuel st h
  | some page => simp [pageLoop, loopBody, h]

theorem runCategory_dry (src : PageSource) (sid mType : String) (fuel : Nat)
    (g : List HistoryItem) :
    runCategory src true sid mType (fuel + 1) g
      = some { requests := [0], categorized := [], globalHistory := g, batchFiles := [],
               exported := none } := by
  simp [runCategory, pageLoop_dry, LoopState.initial, exportCall]

/-- C11: in dry-run mode, for every page source (failing or not, whatever totals it
reports) and any positive fuel, `main` issues exactly one request per category, at offset
0; no record is accumulated in a category or in the global collection, no page snapshot is
recorded, and neither a category export nor the global export is called, so no output
file is produced. -/
theorem dry_run_one_request_no_export (src : PageSource) (sid : String) (fuel : Nat) :
    runMain src true sid (fuel + 1)
      = some
        { categories :=
            [("movie", { requests := [0], categorized := [], globalHistory := [],
                         batchFiles := [], exported := none }),
             ("episode", { requests := [0], categorized := [], globalHistory := [],
                           batchFiles := [], exported := none })],
          globalHistory := [],
          globalExport := none } := by
  simp [runMain, runCategories, mediaTypes, runCategory_dry, exportCall]

/-- Every continuing pass adds at least `pageSize` records and needs the count to stay
below the reported total, so a bound on the totals bounds the number of passes. -/
theorem pageLoop_bounded (src : PageSource) (dryRun : Bool) (sid mType : String) (B : Int)
    (hB : ∀ n o p, src mType n o = some p → p.recordsFiltered ≤ B) :
    ∀ (m fuel : Nat) (st : LoopState), 1 ≤ m → m ≤ fuel →
      B ≤ (st.categorized.length : Int) + 100 * (m : Int) →
      ∃ st', pageLoop src dryRun sid mType fuel st = some st' ∧
        st.requests.length + 1 ≤ st'.requests.length ∧
        st'.requests.length ≤ st.requests.length + m := by
  intro m
  induction m with
  | zero => intro fuel st h; omega
  | succ m ih =>
    intro fuel st _ hfuel hlen
    obtain ⟨f, rfl⟩ : ∃ f, fuel = f + 1 := ⟨fuel - 1, by omega⟩
    have stop : ∃ st', some ({ st with requests := st.requests ++ [st.startOffset] } : LoopState)
          = some st' ∧ st.requests.length + 1 ≤ st'.requests.length ∧
          st'.requests.length ≤ st.requests.length + (m + 1) :=
      ⟨_, rfl, by simp, by simp⟩
    cases hdry : dryRun with
    | true => rw [pageLoop_dry]; exact stop
    | false =>
      cases hrep : src mType st.requests.length st.startOffset with
      | none => rw [pageLoop_fail src false sid mType f st hrep]; exact stop
      | some page =>
        by_cases h0 : page.recordsFiltered = 0
        · rw [pageLoop_zero src false sid mType f st page hrep h0]; exact stop
        · rw [pageLoop_page src sid mType f st page hrep h0]
          by_cases hc : ((st.categorized ++ page.items).length : Int) < page.recordsFiltered
              ∧ pageSize ≤ page.items.length
          · rw [if_pos hc]
            have hle := hB _ _ _ hrep
            have hps : 100 ≤ page.items.length := hc.2
            have hlt := hc.1
            rw [List.length_append] at hlt
            push_cast at hlt
            have hm : 1 ≤ m := by omega
            obtain ⟨st', h1, h2, h3⟩ := ih f (st.afterPage sid mType page) hm (by omega)
              (by
                simp only [LoopState.afterPage, List.length_append]
                push_cast
                omega)
            refine ⟨st', by rw [← hdry]; exact h1, ?_, ?_⟩
            · simp only [LoopState.afterPage, List.length_append, List.length_singleton] at h2
              omega
            · simp only [LoopState.afterPage, List.length_append, List.length_singleton] at h3
              omega
          · rw [if_neg hc]
            exact ⟨_, rfl, by simp [LoopState.afterPage], by simp [LoopState.afterPage]⟩

/-- C18: if no reply of the source for a category reports a `recordsFiltered` above `B`,
then, however inconsistent the pages, the pagination of that category with fuel at least
`max 1 ⌈B / 100⌉` returns, having issued at least one and at most `max 1 ⌈B / 100⌉`
requests (`⌈B / 100⌉ = (B + 99) / 100`). -/
theorem pagination_bounded_by_total (src : PageSource) (dryRun : Bool) (sid mType : String)
    (g : List HistoryItem) (B fuel : Nat)
    (hB : ∀ n o p, src mType n o = some p → p.recordsFiltered ≤ (B : Int))
    (hfuel : max 1 ((B + 99) / 100) ≤ fuel) :
    ∃ r, runCategory src dryRun sid mType fuel g = some r ∧
      1 ≤ r.requests.length ∧ r.requests.length ≤ max 1 ((B + 99) / 100) := by
  obtain ⟨st, h1, h2, h3⟩ :=
    pageLoop_bounded src dryRun sid mType B hB (max 1 ((B + 99) / 100)) fuel
      (LoopState.initial g) (le_max_left _ _) hfuel
      (by
        simp only [LoopState.initial, List.length_nil]
        have : B ≤ 100 * max 1 ((B + 99) / 100) := by
          have := le_max_right 1 ((B + 99) / 100)
          omega
        push_cast
        omega)
  have hrun : runCategory src dryRun sid mType fuel g
      = some { requests := st.requests, categorized := st.categorized,
               globalHistory := st.globalHistory, batchFiles := st.batchFiles,
               exported := exportCall dryRun sid mType st.categorized } := by
    simp only [runCategory, h1]
  refine ⟨_, hrun, ?_, ?_⟩
  · simpa [LoopState.initial] using h2
  · simpa [LoopState.initial] using h3

/-- Witness of C18: the source serving 150 records never reports more than 150, and the
category is paginated in at most two requests. -/
theorem pagination_bounded_by_total_witness :
    ∃ r, runCategory (listSource sampleRecords150) false "s" "movie" 2 [] = some r ∧
      1 ≤ r.requests.length ∧ r.requests.length ≤ max 1 ((150 + 99) / 100) :=
  pagination_bounded_by_total (listSource sampleRecords150) false "s" "movie" [] 150 2
    (by
      intro n o p h
      simp only [listSource, Option.some.injEq] at h
      rw [← h]
      simp [sampleRecords150])
    (by decide)

/-! ## The exported file: the claims -/

theorem dedupedItems_mem_keys (items : List HistoryItem) (k : Int) :
    k ∈ (dedupedItems items).map HistoryItem.RatingKey ↔
      k ∈ items.map HistoryItem.RatingKey := by
  constructor
  · intro hk
    obtain ⟨r, hr, e⟩ := List.mem_map.1 hk
    exact List.mem_map.2 ⟨r, (dedupedItems_firstMax hr).mem, e⟩
  · intro hk
    obtain ⟨y, hy, e⟩ := List.mem_map.1 hk
    rw [dedupedItems_keys, ← e]
    exact (dedupedMap_inv items).2.1 y hy

theorem SortedItems.mem_keys {items out : List HistoryItem} (h : SortedItems items out)
    (k : Int) : k ∈ out.map HistoryItem.RatingKey ↔ k ∈ items.map HistoryItem.RatingKey := by
  rw [(h.1.map HistoryItem.RatingKey).mem_iff]
  exact dedupedItems_mem_keys items k

theorem SortedItems.length_eq {items out : List HistoryItem} (h : SortedItems items out) :
    out.length = (items.map HistoryItem.RatingKey).dedup.length := by
  have hp : (out.map HistoryItem.RatingKey).Perm (items.map HistoryItem.RatingKey).dedup := by
    rw [List.perm_ext_iff_of_nodup h.nodup_keys (List.nodup_dedup _)]
    intro k
    rw [h.mem_keys k, List.mem_dedup]
  rw [← hp.length_eq, List.length_map]

theorem SortedItems.ne_nil {items out : List HistoryItem} (h : SortedItems items out)
    (hne : items ≠ []) : out ≠ [] := by
  obtain ⟨x, hx⟩ := List.exists_mem_of_ne_nil items hne
  have : x.RatingKey ∈ out.map HistoryItem.RatingKey :=
    (h.mem_keys _).2 (List.mem_map_of_mem _ hx)
  intro e
  rw [e] at this
  simp at this

/-- C15: every record of a file written by `writeToCSV` has exactly 13 fields; the first
record is the header `media_id, source, media_type, title, image, season_number,
episode_number, score, status, notes, start_date, end_date, progress`, and every data row
is, in that column order: empty, `tmdb`, the record's media type unchanged, the title,
empty, season, episode, empty, `Completed`, the fixed attribution text, the start date,
the end date and `100`. -/
theorem rows_thirteen_fixed_columns (rt : Runtime) (createOk : Bool) (filename : String)
    (items : List HistoryItem) (res : CsvOutcome) (rows : List (List String))
    (hw : WritesCSV rt createOk filename items res) (hrows : res.file = some rows) :
    rows.head? = some ["media_id", "source", "media_type", "title", "image",
      "season_number", "episode_number", "score", "status", "notes", "start_date",
      "end_date", "progress"] ∧
    (∀ row ∈ rows, row.length = 13) ∧
    ∃ out : List HistoryItem, rows.tail = out.map (csvRow rt) ∧
      ∀ item ∈ out, ∃ title season episode startDate endDate : String,
        csvRow rt item = ["", "tmdb", item.MediaType, title, "", season, episode, "",
          "Completed", "Exported from Tautulli via github.com/dbeg/tautulli-yamtrack-exporter",
          startDate, endDate, "100"] := by
  unfold WritesCSV at hw
  split at hw
  · rw [hw] at hrows; simp at hrows
  · split at hw
    · rw [hw] at hrows; simp at hrows
    · obtain ⟨out, -, e⟩ := hw
      rw [e] at hrows
      simp only [Option.some.injEq] at hrows
      subst hrows
      refine ⟨rfl, ?_, out, rfl, ?_⟩
      · intro row hrow
        simp only [csvRecords, List.mem_cons, List.mem_map] at hrow
        rcases hrow with h | ⟨item, -, h⟩
        · rw [h]; rfl
        · rw [← h]; rfl
      · intro item _
        exact ⟨_, _, _, _, _, rfl⟩

/-- Witness of C15: the file written for a single movie record. -/
theorem rows_thirteen_fixed_columns_witness :
    (csvRecords sampleRuntime [sampleMovie 1 5 0]).head? = some ["media_id", "source",
      "media_type", "title", "image", "season_number", "episode_number", "score", "status",
      "notes", "start_date", "end_date", "progress"] ∧
    (∀ row ∈ csvRecords sampleRuntime [sampleMovie 1 5 0], row.length = 13) :=
  have hw : WritesCSV sampleRuntime true "f.csv" [sampleMovie 1 5 0]
      ⟨some (csvRecords sampleRuntime [sampleMovie 1 5 0]), ["f.csv"]⟩ := by
    unfold WritesCSV
    simp only [List.length_cons, List.length_nil]
    exact ⟨[sampleMovie 1 5 0], by decide, rfl⟩
  have h := rows_thirteen_fixed_columns sampleRuntime true "f.csv" [sampleMovie 1 5 0] _ _ hw rfl
  ⟨h.1, h.2.1⟩

/-- C16: `writeToCSV` on an empty sequence produces no file and records no created path,
whether or not a file could be created; on a non-empty sequence, file creation succeeding,
it has an outcome, and every outcome is one file, recorded once in `createdFiles`, made of
the header and at least one data row, one row per distinct `RatingKey` of the input. -/
theorem export_skipped_exactly_on_empty (rt : Runtime) (filename : String)
    (items : List HistoryItem) :
    (items = [] → ∀ (createOk : Bool) (res : CsvOutcome),
      WritesCSV rt createOk filename items res → res.file = none ∧ res.created = []) ∧
    (items ≠ [] →
      (∃ res, WritesCSV rt true filename items res) ∧
      ∀ res, WritesCSV rt true filename items res →
        ∃ out : List HistoryItem,
          res.file = some (csvHeader :: out.map (csvRow rt)) ∧
          res.created = [rt.absPath filename] ∧
          1 ≤ out.length ∧
          out.length = (items.map HistoryItem.RatingKey).dedup.length ∧
          (out.map HistoryItem.RatingKey).Nodup ∧
          ∀ k, k ∈ out.map HistoryItem.RatingKey ↔ k ∈ items.map HistoryItem.RatingKey) := by
  constructor
  · intro he createOk res hw
    subst he
    unfold WritesCSV at hw
    simp only [List.length_nil, if_true] at hw
    rw [hw]; exact ⟨rfl, rfl⟩
  · intro hne
    have hl : ¬ items.length = 0 := fun e => hne (List.length_eq_zero.1 e)
    constructor
    · refine ⟨⟨some (csvRecords rt (sortedItemsStable items)), [rt.absPath filename]⟩, ?_⟩
      unfold WritesCSV
      rw [if_neg hl, if_neg (by simp)]
      exact ⟨_, sortedItemsStable_spec items, rfl⟩
    · intro res hw
      unfold WritesCSV at hw
      rw [if_neg hl, if_neg (by simp)] at hw
      obtain ⟨out, hs, e⟩ := hw
      refine ⟨out, by rw [e]; rfl, by rw [e], ?_, hs.length_eq, hs.nodup_keys, hs.mem_keys⟩
      exact List.length_pos.2 (hs.ne_nil hne)

/-- Witness of C16: three records over two keys give a header and two rows. -/
theorem export_skipped_exactly_on_empty_witness :
    (∃ res, WritesCSV sampleRuntime true "f.csv"
      [sampleMovie 1 5 0, sampleMovie 2 9 0, sampleMovie 1 7 0] res) ∧
    ([sampleMovie 1 5 0, sampleMovie 2 9 0, sampleMovie 1 7 0].map
      HistoryItem.RatingKey).dedup.length = 2 ∧
    ∀ (createOk : Bool) (res : CsvOutcome),
      WritesCSV sampleRuntime createOk "f.csv" [] res → res.file = none ∧ res.created = [] :=
  ⟨((export_skipped_exactly_on_empty sampleRuntime "f.csv"
      [sampleMovie 1 5 0, sampleMovie 2 9 0, sampleMovie 1 7 0]).2 (by decide)).1,
   by decide,
   (export_skipped_exactly_on_empty sampleRuntime "f.csv" []).1 rfl⟩

/-- C19: the `end_date` column (column 11) comes from `Stopped` alone.  A record with
`Stopped = 0` has effective timestamp `Date`, which is what the `less` closure of the sort
and the comparison of the deduplication loop use for it, while its `end_date` is empty;
a record with `Stopped ≠ 0` has `end_date = formatISO8601(Stopped)`. -/
theorem end_date_from_stopped_only (rt : Runtime) (item : HistoryItem) :
    csvHeader[11]? = some "end_date" ∧
    (csvRow rt item)[11]? = some (formatISO8601 rt.unixFormat item.Stopped) ∧
    (item.Stopped = 0 →
      effectiveTs item = item.Date ∧
      (∀ other, lessTs item other = decide (item.Date > effectiveTs other)) ∧
      (∀ other, lessTs other item = decide (effectiveTs other > item.Date)) ∧
      (∀ m : ItemMap, dedupeStep m item =
        if (mapGet m item.RatingKey).2 = false
            ∨ item.Date > effectiveTs (mapGet m item.RatingKey).1
        then mapSet m item.RatingKey item else m) ∧
      (csvRow rt item)[11]? = some "") ∧
    (item.Stopped ≠ 0 →
      effectiveTs item = item.Stopped ∧
      (csvRow rt item)[11]? = some (rt.unixFormat item.Stopped)) := by
  refine ⟨rfl, rfl, ?_, ?_⟩
  · intro h
    refine ⟨by simp [effectiveTs, h], ?_, ?_, ?_, by simp [csvRow, formatISO8601, h]⟩
    · intro other; simp [lessTs, effectiveTs, h]
    · intro other; simp [lessTs, effectiveTs, h]
    · intro m
      simp only [dedupeStep, effectiveTs, h, if_true]
      cases (mapGet m item.RatingKey).2 <;> simp
  · intro h
    exact ⟨by simp [effectiveTs, h], by simp [csvRow, formatISO8601, h]⟩

/-- Witness of C19: a record with `Stopped = 0` and `Date = 9` sorts by 9 and has an empty
end date; a record with `Stopped = 5` has the rendering of 5 as end date. -/
theorem end_date_from_stopped_only_witness :
    (effectiveTs (sampleMovie 1 0 9) = 9 ∧
      (csvRow sampleRuntime (sampleMovie 1 0 9))[11]? = some "") ∧
    (effectiveTs (sampleMovie 1 5 9) = 5 ∧
      (csvRow sampleRuntime (sampleMovie 1 5 9))[11]? = some "5") :=
  have h₁ := (end_date_from_stopped_only sampleRuntime (sampleMovie 1 0 9)).2.2.1 rfl
  have h₂ := (end_date_from_stopped_only sampleRuntime (sampleMovie 1 5 9)).2.2.2 (by decide)
  ⟨⟨h₁.1, h₁.2.2.2.2⟩, ⟨h₂.1, h₂.2.trans (by decide)⟩⟩

/-! ## Category and global exports: the claims -/

theorem FirstMax.unique {l : List HistoryItem} {r r' : HistoryItem}
    (h : FirstMax l r) (h' : FirstMax l r') (hk : r.RatingKey = r'.RatingKey) : r = r' := by
  obtain ⟨p, q, e, h1, h2⟩ := h
  obtain ⟨p', q', e', h1', h2'⟩ := h'
  rw [e] at e'
  rcases List.append_eq_append_iff.1 e' with ⟨a, ha, hb⟩ | ⟨c, hc, hd⟩
  · cases a with
    | nil =>
      simp only [List.nil_append, List.cons.injEq] at hb
      exact hb.1
    | cons x t =>
      simp only [List.cons_append, List.cons.injEq] at hb
      have hr : r ∈ p' := by rw [ha, hb.1]; simp
      have hr' : r' ∈ q := by rw [hb.2]; simp
      have := h1' r hr hk
      have := h2 r' hr' hk.symm
      omega
  · cases c with
    | nil =>
      simp only [List.nil_append, List.cons.injEq] at hd
      exact hd.1.symm
    | cons x t =>
      simp only [List.cons_append, List.cons.injEq] at hd
      have hr' : r' ∈ p := by rw [hc, hd.1]; simp
      have hr : r ∈ q' := by rw [hd.2]; simp
      have := h1 r' hr' hk.symm
      have := h2' r hr hk
      omega

theorem mem_dedupedItems_iff_firstMax (l : List HistoryItem) (r : HistoryItem) :
    r ∈ dedupedItems l ↔ FirstMax l r := by
  constructor
  · exact dedupedItems_firstMax
  · intro h
    have hk : r.RatingKey ∈ (dedupedItems l).map HistoryItem.RatingKey :=
      (dedupedItems_mem_keys l _).2 (List.mem_map_of_mem _ h.mem)
    obtain ⟨r', hr', e⟩ := List.mem_map.1 hk
    have : r' = r := (dedupedItems_firstMax hr').unique h e
    rw [← this]; exact hr'

theorem FirstMax.append_left {A B : List HistoryItem} {r : HistoryItem}
    (hdis : ∀ a ∈ A, ∀ b ∈ B, a.RatingKey ≠ b.RatingKey) (h : FirstMax A r) :
    FirstMax (A ++ B) r := by
  have hr := h.mem
  obtain ⟨p, q, e, h1, h2⟩ := h
  refine ⟨p, q ++ B, by rw [e]; simp, h1, ?_⟩
  intro x hx hxk
  rcases List.mem_append.1 hx with hx | hx
  · exact h2 x hx hxk
  · exact absurd hxk.symm (hdis r hr x hx)

theorem FirstMax.append_right {A B : List HistoryItem} {r : HistoryItem}
    (hdis : ∀ a ∈ A, ∀ b ∈ B, a.RatingKey ≠ b.RatingKey) (h : FirstMax B r) :
    FirstMax (A ++ B) r := by
  have hr := h.mem
  obtain ⟨p, q, e, h1, h2⟩ := h
  refine ⟨A ++ p, q, by rw [e]; simp, ?_, h2⟩
  intro x hx hxk
  rcases List.mem_append.1 hx with hx | hx
  · exact absurd hxk (hdis x hx r hr)
  · exact h1 x hx hxk

/-- With no key common to the two lists, deduplicating the concatenation keeps exactly the
records kept from each list. -/
theorem dedupedItems_append_perm (A B : List HistoryItem)
    (hdis : ∀ a ∈ A, ∀ b ∈ B, a.RatingKey ≠ b.RatingKey) :
    (dedupedItems (A ++ B)).Perm (dedupedItems A ++ dedupedItems B) := by
  have hA := List.Nodup.of_map _ (dedupedItems_nodup_keys A)
  have hB := List.Nodup.of_map _ (dedupedItems_nodup_keys B)
  have hAB := List.Nodup.of_map _ (dedupedItems_nodup_keys (A ++ B))
  have hdj : List.Disjoint (dedupedItems A) (dedupedItems B) := by
    intro x hxA hxB
    exact hdis x (dedupedItems_firstMax hxA).mem x (dedupedItems_firstMax hxB).mem rfl
  rw [List.perm_ext_iff_of_nodup hAB (hA.append hB hdj)]
  intro r
  rw [List.mem_append, mem_dedupedItems_iff_firstMax, mem_dedupedItems_iff_firstMax,
    mem_dedupedItems_iff_firstMax]
  constructor
  · intro h
    rcases List.mem_append.1 h.mem with hr | hr
    · left
      have hk : r.RatingKey ∈ (dedupedItems A).map HistoryItem.RatingKey :=
        (dedupedItems_mem_keys A _).2 (List.mem_map_of_mem _ hr)
      obtain ⟨r', hr', e⟩ := List.mem_map.1 hk
      have hf := dedupedItems_firstMax hr'
      have : r' = r := (hf.append_left hdis).unique h e
      rw [← this]; exact hf
    · right
      have hk : r.RatingKey ∈ (dedupedItems B).map HistoryItem.RatingKey :=
        (dedupedItems_mem_keys B _).2 (List.mem_map_of_mem _ hr)
      obtain ⟨r', hr', e⟩ := List.mem_map.1 hk
      have hf := dedupedItems_firstMax hr'
      have : r' = r := (hf.append_right hdis).unique h e
      rw [← this]; exact hf
  · rintro (h | h)
    · exact h.append_left hdis
    · exact h.append_right hdis

theorem pageLoop_accumulates (src : PageSource) (dryRun : Bool) (sid mType : String) :
    ∀ (fuel : Nat) (st st' : LoopState),
      pageLoop src dryRun sid mType fuel st = some st' →
      ∃ added, st'.categorized = st.categorized ++ added ∧
        st'.globalHistory = st.globalHistory ++ added := by
  intro fuel
  induction fuel with
  | zero => intro st st' h; simp [pageLoop] at h
  | succ f ih =>
    intro st st' h
    have stop : some ({ st with requests := st.requests ++ [st.startOffset] } : LoopState)
        = some st' → ∃ added, st'.categorized = st.categorized ++ added ∧
          st'.globalHistory = st.globalHistory ++ added := by
      intro e
      simp only [Option.some.injEq] at e
      exact ⟨[], by rw [← e]; simp, by rw [← e]; simp⟩
    cases hdry : dryRun with
    | true =>
      rw [hdry, pageLoop_dry] at h
      exact stop h
    | false =>
      rw [hdry] at h
      cases hrep : src mType st.requests.length st.startOffset with
      | none =>
        rw [pageLoop_fail src false sid mType f st hrep] at h
        exact stop h
      | some page =>
        by_cases h0 : page.recordsFiltered = 0
        · rw [pageLoop_zero src false sid mType f st page hrep h0] at h
          exact stop h
        · rw [pageLoop_page src sid mType f st page hrep h0] at h
          split at h
          · rw [← hdry] at h
            obtain ⟨added, h1, h2⟩ := ih _ _ h
            refine ⟨page.items ++ added, ?_, ?_⟩
            · rw [h1]; simp [LoopState.afterPage]
            · rw [h2]; simp [LoopState.afterPage]
          · simp only [Option.some.injEq] at h
            exact ⟨page.items, by rw [← h]; simp [LoopState.afterPage],
              by rw [← h]; simp [LoopState.afterPage]⟩

theorem runCategory_spec (src : PageSource) (dryRun : Bool) (sid mType : String) (fuel : Nat)
    (g : List HistoryItem) (r : CategoryResult)
    (h : runCategory src dryRun sid mType fuel g = some r) :
    r.globalHistory = g ++ r.categorized ∧
    r.exported = exportCall dryRun sid mType r.categorized := by
  unfold runCategory at h
  cases hl : pageLoop src dryRun sid mType fuel (LoopState.initial g) with
  | none => rw [hl] at h; simp at h
  | some st =>
    rw [hl] at h
    simp only [Option.some.injEq] at h
    obtain ⟨added, h1, h2⟩ := pageLoop_accumulates src dryRun sid mType fuel _ _ hl
    simp only [LoopState.initial, List.nil_append] at h1 h2
    rw [← h]
    exact ⟨by simp only []; rw [h1, h2], rfl⟩

theorem runMain_spec (src : PageSource) (dryRun : Bool) (sid : String) (fuel : Nat)
    (res : RunResult) (h : runMain src dryRun sid fuel = some res) :
    ∃ rm re, res.categories = [("movie", rm), ("episode", re)] ∧
      runCategory src dryRun sid "movie" fuel [] = some rm ∧
      runCategory src dryRun sid "episode" fuel rm.globalHistory = some re ∧
      res.globalHistory = rm.categorized ++ re.categorized ∧
      res.globalExport = exportCall dryRun sid "global" (rm.categorized ++ re.categorized) := by
  unfold runMain at h
  simp only [mediaTypes, runCategories] at h
  cases hm : runCategory src dryRun sid "movie" fuel [] with
  | none => rw [hm] at h; simp at h
  | some rm =>
    rw [hm] at h
    simp only [] at h
    cases he : runCategory src dryRun sid "episode" fuel rm.globalHistory with
    | none => rw [he] at h; simp at h
    | some re =>
      rw [he] at h
      simp only [Option.some.injEq] at h
      have h1 := (runCategory_spec _ _ _ _ _ _ _ hm).1
      have h2 := (runCategory_spec _ _ _ _ _ _ _ he).1
      rw [h1, List.nil_append] at h2
      refine ⟨rm, re, by rw [← h], rfl, he, by rw [← h]; exact h2, by rw [← h]; simp only []; rw [h2]⟩

/-- C17, as stated, fails: when the two categories hold a record of the same `RatingKey`,
all three exports are called, each category file has one data row, and the global file
has one data row, not two. -/
theorem global_rows_fewer_on_shared_key :
    ∃ res rm re, runMain sharedKeySource false "s" 1 = some res ∧
      res.categories = [("movie", rm), ("episode", re)] ∧
      rm.exported = some (csvName "s" "movie", rm.categorized) ∧
      re.exported = some (csvName "s" "episode", re.categorized) ∧
      res.globalExport = some (csvName "s" "global", res.globalHistory) ∧
      ∀ om oe og, SortedItems rm.categorized om → SortedItems re.categorized oe →
        SortedItems res.globalHistory og →
        om.length = 1 ∧ oe.length = 1 ∧ og.length = 1 ∧ og.length ≠ om.length + oe.length := by
  refine ⟨
    { categories :=
        [("movie", { requests := [0],
                     categorized := [{ sampleMovie 1 5 0 with MediaType := "movie" }],
                     globalHistory := [{ sampleMovie 1 5 0 with MediaType := "movie" }],
                     batchFiles := ["tmp/s/movie/batch_0.json"],
                     exported := some (csvName "s" "movie",
                       [{ sampleMovie 1 5 0 with MediaType := "movie" }]) }),
         ("episode", { requests := [0],
                       categorized := [{ sampleMovie 1 5 0 with MediaType := "episode" }],
                       globalHistory := [{ sampleMovie 1 5 0 with MediaType := "movie" },
                         { sampleMovie 1 5 0 with MediaType := "episode" }],
                       batchFiles := ["tmp/s/episode/batch_0.json"],
                       exported := some (csvName "s" "episode",
                         [{ sampleMovie 1 5 0 with MediaType := "episode" }]) })],
      globalHistory := [{ sampleMovie 1 5 0 with MediaType := "movie" },
        { sampleMovie 1 5 0 with MediaType := "episode" }],
      globalExport := some (csvName "s" "global",
        [{ sampleMovie 1 5 0 with MediaType := "movie" },
         { sampleMovie 1 5 0 with MediaType := "episode" }]) },
    _, _, rfl, rfl, rfl, rfl, rfl, ?_⟩
  intro om oe og hm he hg
  have h1 := hm.length_eq
  have h2 := he.length_eq
  have h3 := hg.length_eq
  have e1 : ([{ sampleMovie 1 5 0 with MediaType := "movie" }].map
      HistoryItem.RatingKey).dedup.length = 1 := by decide
  have e2 : ([{ sampleMovie 1 5 0 with MediaType := "episode" }].map
      HistoryItem.RatingKey).dedup.length = 1 := by decide
  have e3 : ([{ sampleMovie 1 5 0 with MediaType := "movie" },
      { sampleMovie 1 5 0 with MediaType := "episode" }].map
      HistoryItem.RatingKey).dedup.length = 1 := by decide
  simp only [] at h1 h2 h3
  rw [e1] at h1
  rw [e2] at h2
  rw [e3] at h3
  omega

theorem runCategory_returns (src : PageSource) (dryRun : Bool) (sid mType : String)
    (g : List HistoryItem) (B fuel : Nat)
    (hB : ∀ n o p, src mType n o = some p → p.recordsFiltered ≤ (B : Int))
    (hfuel : max 1 ((B + 99) / 100) ≤ fuel) :
    ∃ r, runCategory src dryRun sid mType fuel g = some r := by
  obtain ⟨st, h1, -, -⟩ :=
    pageLoop_bounded src dryRun sid mType B hB (max 1 ((B + 99) / 100)) fuel
      (LoopState.initial g) (le_max_left _ _) hfuel
      (by
        simp only [LoopState.initial, List.length_nil]
        have : B ≤ 100 * max 1 ((B + 99) / 100) := by
          have := le_max_right 1 ((B + 99) / 100)
          omega
        push_cast
        omega)
  have hrun : runCategory src dryRun sid mType fuel g
      = some { requests := st.requests, categorized := st.categorized,
               globalHistory := st.globalHistory, batchFiles := st.batchFiles,
               exported := exportCall dryRun sid mType st.categorized } := by
    simp only [runCategory, h1]
  exact ⟨_, hrun⟩

theorem runMain_returns (src : PageSource) (dryRun : Bool) (sid : String) (B fuel : Nat)
    (hB : ∀ mType n o p, src mType n o = some p → p.recordsFiltered ≤ (B : Int))
    (hfuel : max 1 ((B + 99) / 100) ≤ fuel) :
    ∃ res, runMain src dryRun sid fuel = some res := by
  obtain ⟨rm, hm⟩ := runCategory_returns src dryRun sid "movie" [] B fuel (hB "movie") hfuel
  obtain ⟨re, he⟩ := runCategory_returns src dryRun sid "episode" rm.globalHistory B fuel
    (hB "episode") hfuel
  have hrun : runMain src dryRun sid fuel
      = some { categories := [("movie", rm), ("episode", re)],
               globalHistory := re.globalHistory,
               globalExport := exportCall dryRun sid "global" re.globalHistory } := by
    simp only [runMain, runCategories, mediaTypes, hm, he]
  exact ⟨_, hrun⟩

/-- What a returned non-dry run has collected and exported. -/
theorem runMain_exports (rt : Runtime) (src : PageSource) (sid : String)
    (fuel : Nat) (res : RunResult) (h : runMain src false sid fuel = some res) :
    ∃ rm re, res.categories = [("movie", rm), ("episode", re)] ∧
      res.globalHistory = rm.categorized ++ re.categorized ∧
      res.globalExport = exportCall false sid "global" (rm.categorized ++ re.categorized) ∧
      (rm.categorized ≠ [] → re.categorized ≠ [] →
        rm.exported = some (csvName sid "movie", rm.categorized) ∧
        re.exported = some (csvName sid "episode", re.categorized) ∧
        res.globalExport = some (csvName sid "global", rm.categorized ++ re.categorized)) ∧
      ∀ om oe og, SortedItems rm.categorized om → SortedItems re.categorized oe →
        SortedItems res.globalHistory og →
        og.Pairwise (fun a b => effectiveTs a ≥ effectiveTs b) ∧
        og.length = (res.globalHistory.map HistoryItem.RatingKey).dedup.length ∧
        og.length ≤ om.length + oe.length ∧
        ((∀ a ∈ rm.categorized, ∀ b ∈ re.categorized, a.RatingKey ≠ b.RatingKey) →
          og.Perm (om ++ oe) ∧
          (og.map (csvRow rt)).Perm (om.map (csvRow rt) ++ oe.map (csvRow rt)) ∧
          og.length = om.length + oe.length) := by
  obtain ⟨rm, re, hc, hm, he, hg, hx⟩ := runMain_spec src false sid fuel res h
  refine ⟨rm, re, hc, hg, hx, ?_, ?_⟩
  · intro hmne hene
    refine ⟨?_, ?_, ?_⟩
    · rw [(runCategory_spec _ _ _ _ _ _ _ hm).2]; exact exportCall_of_ne_nil _ _ _ hmne
    · rw [(runCategory_spec _ _ _ _ _ _ _ he).2]; exact exportCall_of_ne_nil _ _ _ hene
    · rw [hx]
      exact exportCall_of_ne_nil _ _ _ (by
        intro e
        exact hmne (List.append_eq_nil.1 e).1)
  · intro om oe og hom hoe hog
    refine ⟨hog.pairwise_ge, hog.length_eq, ?_, ?_⟩
    · have hsub : og.map HistoryItem.RatingKey
          ⊆ om.map HistoryItem.RatingKey ++ oe.map HistoryItem.RatingKey := by
        intro k hk
        have hk' := (hog.mem_keys k).1 hk
        rw [hg, List.map_append, List.mem_append] at hk'
        rw [List.mem_append]
        rcases hk' with hk' | hk'
        · exact Or.inl ((hom.mem_keys k).2 hk')
        · exact Or.inr ((hoe.mem_keys k).2 hk')
      have := (hog.nodup_keys.subperm hsub).length_le
      simpa using this
    · intro hdis
      have hp : og.Perm (om ++ oe) := by
        have h1 := hog.1
        rw [hg] at h1
        exact (h1.trans (dedupedItems_append_perm _ _ hdis)).trans
          (hom.1.symm.append hoe.1.symm)
      refine ⟨hp, ?_, ?_⟩
      · have := hp.map (csvRow rt)
        rwa [List.map_append] at this
      · have := hp.length_eq
        rwa [List.length_append] at this


/-- C17, amended: in a non-dry run against a source whose reported totals never exceed a
bound `B`, with fuel at least `max 1 ⌈B / 100⌉`, `main` returns; the global collection is
the movie collection followed by the episode collection and the global export is the
guarded call of `writeToCSV` on it; when both categories hold a record, the three calls
(movie, episode, global) are all made; the global file has one row per distinct
`RatingKey` of the concatenation, in descending order of effective timestamp, so at most
as many rows as the two category files together; and when no `RatingKey` occurs in both
categories its rows are the rows of the two category files together, in number the sum of
theirs. -/
theorem global_export_of_concatenation (rt : Runtime) (src : PageSource) (sid : String)
    (B fuel : Nat)
    (hB : ∀ mType n o p, src mType n o = some p → p.recordsFiltered ≤ (B : Int))
    (hfuel : max 1 ((B + 99) / 100) ≤ fuel) :
    ∃ res rm re, runMain src false sid fuel = some res ∧
      res.categories = [("movie", rm), ("episode", re)] ∧
      res.globalHistory = rm.categorized ++ re.categorized ∧
      res.globalExport = exportCall false sid "global" (rm.categorized ++ re.categorized) ∧
      (rm.categorized ≠ [] → re.categorized ≠ [] →
        rm.exported = some (csvName sid "movie", rm.categorized) ∧
        re.exported = some (csvName sid "episode", re.categorized) ∧
        res.globalExport = some (csvName sid "global", rm.categorized ++ re.categorized)) ∧
      ∀ om oe og, SortedItems rm.categorized om → SortedItems re.categorized oe →
        SortedItems res.globalHistory og →
        og.Pairwise (fun a b => effectiveTs a ≥ effectiveTs b) ∧
        og.length = (res.globalHistory.map HistoryItem.RatingKey).dedup.length ∧
        og.length ≤ om.length + oe.length ∧
        ((∀ a ∈ rm.categorized, ∀ b ∈ re.categorized, a.RatingKey ≠ b.RatingKey) →
          og.Perm (om ++ oe) ∧
          (og.map (csvRow rt)).Perm (om.map (csvRow rt) ++ oe.map (csvRow rt)) ∧
          og.length = om.length + oe.length) := by
  obtain ⟨res, hrun⟩ := runMain_returns src false sid B fuel hB hfuel
  obtain ⟨rm, re, h⟩ := runMain_exports rt src sid fuel res hrun
  exact ⟨res, rm, re, hrun, h⟩

/-- Witness of C17 (amended): the end-to-end scenario, one movie row and two episode rows
(three episode records, two of one key), totals at most 3: the run returns with fuel 1 and
the global file has three rows. -/
theorem global_export_of_concatenation_witness :
    ∃ res rm re, runMain scenarioSource false "s" 1 = some res ∧
      res.categories = [("movie", rm), ("episode", re)] ∧
      res.globalHistory = rm.categorized ++ re.categorized ∧
      res.globalExport = some (csvName "s" "global", rm.categorized ++ re.categorized) ∧
      ∀ om oe og, SortedItems rm.categorized om → SortedItems re.categorized oe →
        SortedItems res.globalHistory og →
        om.length = 1 ∧ oe.length = 2 ∧ og.length = 3 := by
  have hrun : runMain scenarioSource false "s" 1 = some
    { categories :=
        [("movie", { requests := [0], categorized := [sampleMovie 1 5 0],
                     globalHistory := [sampleMovie 1 5 0],
                     batchFiles := ["tmp/s/movie/batch_0.json"],
                     exported := some (csvName "s" "movie", [sampleMovie 1 5 0]) }),
         ("episode",
           { requests := [0],
             categorized := [sampleEpisode 2 "Show" (Value.int 1) (Value.int 1),
               sampleEpisode 3 "Show" (Value.int 1) (Value.int 2),
               { sampleEpisode 2 "Show" (Value.int 1) (Value.int 1) with Stopped := 9 }],
             globalHistory := [sampleMovie 1 5 0,
               sampleEpisode 2 "Show" (Value.int 1) (Value.int 1),
               sampleEpisode 3 "Show" (Value.int 1) (Value.int 2),
               { sampleEpisode 2 "Show" (Value.int 1) (Value.int 1) with Stopped := 9 }],
             batchFiles := ["tmp/s/episode/batch_0.json"],
             exported := some (csvName "s" "episode",
               [sampleEpisode 2 "Show" (Value.int 1) (Value.int 1),
                sampleEpisode 3 "Show" (Value.int 1) (Value.int 2),
                { sampleEpisode 2 "Show" (Value.int 1) (Value.int 1) with Stopped := 9 }]) })],
      globalHistory := [sampleMovie 1 5 0,
        sampleEpisode 2 "Show" (Value.int 1) (Value.int 1),
        sampleEpisode 3 "Show" (Value.int 1) (Value.int 2),
        { sampleEpisode 2 "Show" (Value.int 1) (Value.int 1) with Stopped := 9 }],
      globalExport := some (csvName "s" "global",
        [sampleMovie 1 5 0,
         sampleEpisode 2 "Show" (Value.int 1) (Value.int 1),
         sampleEpisode 3 "Show" (Value.int 1) (Value.int 2),
         { sampleEpisode 2 "Show" (Value.int 1) (Value.int 1) with Stopped := 9 }]) } := rfl
  have hB : ∀ mType n o p, scenarioSource mType n o = some p → p.recordsFiltered ≤ ((3 : Nat) : Int) := by
    intro mType n o p h
    unfold scenarioSource at h
    split at h <;> simp only [Option.some.injEq] at h <;> rw [← h] <;> decide
  obtain ⟨res, rm, re, h0, h1, h2, h3, h4, h5⟩ :=
    global_export_of_concatenation sampleRuntime scenarioSource "s" 3 1 hB (by decide)
  rw [hrun] at h0
  simp only [Option.some.injEq] at h0
  subst h0
  simp only [List.cons.injEq, Prod.mk.injEq, true_and, and_true] at h1
  obtain ⟨e1, e2⟩ := h1
  subst e1 e2
  refine ⟨_, _, _, hrun, rfl, rfl, rfl, ?_⟩
  intro om oe og hom hoe hog
  have hdis : ∀ a ∈ [sampleMovie 1 5 0],
      ∀ b ∈ [sampleEpisode 2 "Show" (Value.int 1) (Value.int 1),
        sampleEpisode 3 "Show" (Value.int 1) (Value.int 2),
        { sampleEpisode 2 "Show" (Value.int 1) (Value.int 1) with Stopped := 9 }],
      a.RatingKey ≠ b.RatingKey := by decide
  have hsum := ((h5 om oe og hom hoe hog).2.2.2 hdis).2.2
  have hm1 := hom.length_eq
  have he1 := hoe.length_eq
  have c1 : ([sampleMovie 1 5 0].map HistoryItem.RatingKey).dedup.length = 1 := by decide
  have c2 : ([sampleEpisode 2 "Show" (Value.int 1) (Value.int 1),
      sampleEpisode 3 "Show" (Value.int 1) (Value.int 2),
      { sampleEpisode 2 "Show" (Value.int 1) (Value.int 1) with Stopped := 9 }].map
      HistoryItem.RatingKey).dedup.length = 2 := by decide
  simp only [] at hm1 he1
  rw [c1] at hm1
  rw [c2] at he1
  omega

/-! ## The library's clock and calendar: lemmas -/

theorem isLeap_iff (year : Int) :
    isLeap year = true ↔ year % 4 = 0 ∧ (year % 100 ≠ 0 ∨ year % 400 = 0) := by
  simp [isLeap]

/-- The cycle counts cut off by `absDate`, in flat form. -/
theorem yearDay_core (days a d1 n1 b d2 c d3 n3 e yd : Nat)
    (ha : a = days / 146097) (hd1 : d1 = days - 146097 * a) (hn1 : n1 = d1 / 36524)
    (hb : b = n1 - n1 / 4) (hd2 : d2 = d1 - 36524 * b) (hc : c = d2 / 1461)
    (hd3 : d3 = d2 - 1461 * c) (hn3 : n3 = d3 / 365) (he : e = n3 - n3 / 4)
    (hyd : yd = d3 - 365 * e) :
    b ≤ 3 ∧ c ≤ 24 ∧ e ≤ 3 ∧
    days = 146097 * a + 36524 * b + 1461 * c + 365 * e + yd ∧
    yd ≤ 365 ∧ (yd = 365 → e = 3 ∧ (c ≠ 24 ∨ b = 3)) := by
  have h1 : d1 < 146097 := by omega
  have h1' : days = 146097 * a + d1 := by omega
  have h2 : n1 ≤ 4 := by omega
  have h3 : b ≤ 3 := by omega
  have h4 : d2 ≤ 36524 ∧ d1 = 36524 * b + d2 ∧ (d2 = 36524 → b = 3) := by omega
  have h5 : c ≤ 24 := by omega
  have h6 : d3 ≤ 1460 ∧ d2 = 1461 * c + d3 ∧ (d3 = 1460 → c ≠ 24 ∨ b = 3) := by omega
  have h7 : n3 ≤ 4 := by omega
  have h8 : e ≤ 3 := by omega
  have h9 : yd ≤ 365 ∧ d3 = 365 * e + yd ∧ (yd = 365 → e = 3 ∧ d3 = 1460) := by omega
  refine ⟨h3, h5, h8, by omega, h9.1, ?_⟩
  intro h
  exact ⟨(h9.2.2 h).1, h6.2.2 (h9.2.2 h).2⟩

theorem isLeap_cycle (a b c e : Nat) (hb : b ≤ 3) (hc : c ≤ 24) (he : e ≤ 3) :
    isLeap (((400 * a + 100 * b + 4 * c + e : Nat) : Int) + absoluteZeroYear) = true
      ↔ e = 3 ∧ (c ≠ 24 ∨ b = 3) := by
  rw [isLeap_iff]
  simp only [absoluteZeroYear]
  push_cast
  omega

theorem daysSinceEpoch_cycle (a b c e : Nat) (hb : b ≤ 3) (hc : c ≤ 24) (he : e ≤ 3)
    (ha : a < 2 ^ 50) :
    daysSinceEpoch (((400 * a + 100 * b + 4 * c + e : Nat) : Int) + absoluteZeroYear)
      = 146097 * a + 36524 * b + 1461 * c + 365 * e := by
  have hy : ((((400 * a + 100 * b + 4 * c + e : Nat) : Int) + absoluteZeroYear
      - absoluteZeroYear) % 2 ^ 64).toNat = 400 * a + 100 * b + 4 * c + e := by
    simp only [absoluteZeroYear]
    omega
  unfold daysSinceEpoch
  simp only [hy]
  omega

theorem absYearDay_eq (days : Nat) :
    ∃ a b c e yd, absYearDay days = (400 * a + 100 * b + 4 * c + e, yd) ∧
      a = days / 146097 ∧ b ≤ 3 ∧ c ≤ 24 ∧ e ≤ 3 ∧
      days = 146097 * a + 36524 * b + 1461 * c + 365 * e + yd ∧
      yd ≤ 365 ∧ (yd = 365 → e = 3 ∧ (c ≠ 24 ∨ b = 3)) :=
  ⟨days / 146097, _, _, _, _, rfl, rfl,
    yearDay_core days _ _ _ _ _ _ _ _ _ _ rfl rfl rfl rfl rfl rfl rfl rfl rfl rfl⟩

theorem absYearDay_spec (days : Nat) (h : days < 2 ^ 60) :
    (absYearDay days).2 < (if isLeap (((absYearDay days).1 : Int) + absoluteZeroYear) = true
      then 366 else 365) ∧
    daysSinceEpoch (((absYearDay days).1 : Int) + absoluteZeroYear) + (absYearDay days).2
      = days := by
  obtain ⟨a, b, c, e, yd, heq, ha, hb, hc, he, hsum, hyd, hleap⟩ := absYearDay_eq days
  rw [heq]
  simp only []
  have ha' : a < 2 ^ 50 := by omega
  rw [daysSinceEpoch_cycle a b c e hb hc he ha']
  refine ⟨?_, by omega⟩
  split
  · omega
  · rename_i hnl
    rw [isLeap_cycle a b c e hb hc he] at hnl
    have : yd ≠ 365 := fun h365 => hnl (hleap h365)
    omega

set_option maxRecDepth 1000000 in
/-- The month and day computed from the day of the year are in range and add up again to
that day of the year. -/
theorem monthDay_spec : ∀ yday, yday < 366 → ∀ leap : Bool,
    yday < (if leap = true then 366 else 365) →
    1 ≤ (monthDay leap yday).1 ∧ (monthDay leap yday).1 ≤ 12 ∧
    1 ≤ (monthDay leap yday).2 ∧
    (monthDay leap yday).2 ≤ (if (monthDay leap yday).1 = 2 ∧ leap = true then 29
      else daysBefore (monthDay leap yday).1 - daysBefore ((monthDay leap yday).1 - 1)) ∧
    (monthDay leap yday).2 ≤ 31 ∧
    daysBefore ((monthDay leap yday).1 - 1)
      + (if leap = true ∧ (monthDay leap yday).1 ≥ 3 then 1 else 0)
      + ((monthDay leap yday).2 - 1) = yday := by
  decide

theorem absClock_spec (abs : Nat) :
    (absClock abs).1 < 24 ∧ (absClock abs).2.1 < 60 ∧ (absClock abs).2.2 < 60 ∧
    (absClock abs).1 * 3600 + (absClock abs).2.1 * 60 + (absClock abs).2.2 = abs % 86400 := by
  simp only [absClock]
  omega

theorem wrapInt_of_range (z : Int) (h₁ : -(2 ^ 63) ≤ z) (h₂ : z < 2 ^ 63) : wrapInt z = z := by
  unfold wrapInt
  omega

/-- The fields `absDate` and `absClock` compute are a valid date and time of day, and
`Date` maps them back to the absolute second count they came from. -/
theorem date_clock_inverse (abs : Nat) (h : abs < 2 ^ 64) :
    1 ≤ (absDate (abs / 86400)).2.1 ∧ (absDate (abs / 86400)).2.1 ≤ 12 ∧
    1 ≤ (absDate (abs / 86400)).2.2 ∧
    (absDate (abs / 86400)).2.2
      ≤ daysIn (absDate (abs / 86400)).2.1 (absDate (abs / 86400)).1 ∧
    (absClock abs).1 < 24 ∧ (absClock abs).2.1 < 60 ∧ (absClock abs).2.2 < 60 ∧
    dateUnix (absDate (abs / 86400)).1 (absDate (abs / 86400)).2.1
        (absDate (abs / 86400)).2.2 (absClock abs).1 (absClock abs).2.1 (absClock abs).2.2
      = wrapInt ((abs : Int) - unixToAbsolute) := by
  have hdays : abs / 86400 < 2 ^ 60 := by omega
  obtain ⟨hyd, hsum⟩ := absYearDay_spec (abs / 86400) hdays
  obtain ⟨c1, c2, c3, c4⟩ := absClock_spec abs
  have hyd366 : (absYearDay (abs / 86400)).2 < 366 := by
    split at hyd <;> omega
  obtain ⟨m1, m2, m3, m4, -, m6⟩ :=
    monthDay_spec (absYearDay (abs / 86400)).2 hyd366
      (isLeap (((absYearDay (abs / 86400)).1 : Int) + absoluteZeroYear)) hyd
  refine ⟨m1, m2, m3, ?_, c1, c2, c3, ?_⟩
  · simp only [absDate, daysIn]
    exact m4
  · simp only [absDate, dateUnix]
    have hd : (if isLeap (((absYearDay (abs / 86400)).1 : Int) + absoluteZeroYear) = true
          ∧ (monthDay (isLeap (((absYearDay (abs / 86400)).1 : Int) + absoluteZeroYear))
              (absYearDay (abs / 86400)).2).1 ≥ 3
        then daysSinceEpoch (((absYearDay (abs / 86400)).1 : Int) + absoluteZeroYear)
          + daysBefore ((monthDay (isLeap (((absYearDay (abs / 86400)).1 : Int)
              + absoluteZeroYear)) (absYearDay (abs / 86400)).2).1 - 1) + 1
        else daysSinceEpoch (((absYearDay (abs / 86400)).1 : Int) + absoluteZeroYear)
          + daysBefore ((monthDay (isLeap (((absYearDay (abs / 86400)).1 : Int)
              + absoluteZeroYear)) (absYearDay (abs / 86400)).2).1 - 1))
        + ((monthDay (isLeap (((absYearDay (abs / 86400)).1 : Int) + absoluteZeroYear))
              (absYearDay (abs / 86400)).2).2 - 1) = abs / 86400 := by
      split at m6 <;> rename_i hc
      · rw [if_pos hc]; omega
      · rw [if_neg hc]; omega
    rw [hd]
    have habs : (abs / 86400 * 86400 + ((absClock abs).1 * 3600 + (absClock abs).2.1 * 60
        + (absClock abs).2.2)) % 2 ^ 64 = abs := by
      omega
    rw [habs]

theorem year_range (abs : Nat) (h₁ : 9223371966548102400 ≤ abs)
    (h₂ : abs < 9223372282117622400) :
    0 ≤ (absDate (abs / 86400)).1 ∧ (absDate (abs / 86400)).1 ≤ 9999 := by
  obtain ⟨a, b, c, e, yd, heq, ha, hb, hc, he, hsum, hyd, hleap⟩ :=
    absYearDay_eq (abs / 86400)
  simp only [absDate, heq, absoluteZeroYear]
  have hd1 : 106751990353566 ≤ abs / 86400 := by omega
  have hd2 : abs / 86400 < 106751994005991 := by omega
  have ha1 : 730692555 ≤ a := by omega
  have ha2 : a ≤ 730692580 := by omega
  push_cast
  constructor
  · by_cases ha0 : a = 730692555
    · have hrest : 145731 ≤ 36524 * b + 1461 * c + 365 * e + yd := by omega
      by_cases h365 : yd = 365
      · obtain ⟨he3, hcb⟩ := hleap h365
        have hb3 : b = 3 := by omega
        have hc24 : c = 24 := by omega
        omega
      · have hb3 : b = 3 := by omega
        have hc24 : c = 24 := by omega
        have he3 : e = 3 := by omega
        omega
    · omega
  · by_cases ha0 : a = 730692580
    · have hrest : 36524 * b + 1461 * c + 365 * e + yd < 146097 := by omega
      omega
    · omega

theorem digitVal_digitChar : ∀ n, n < 10 → digitVal (Nat.digitChar n) = some n := by
  decide

theorem getnum2_digits (n : Nat) (h : n < 100) :
    getnum2 (Nat.digitChar (n / 10)) (Nat.digitChar (n % 10)) = some n := by
  unfold getnum2
  rw [digitVal_digitChar (n / 10) (by omega), digitVal_digitChar (n % 10) (by omega)]
  simp only [Option.some.injEq]
  omega

theorem getnum4_digits (n : Nat) (h : n < 10000) :
    getnum4 (Nat.digitChar (n / 1000)) (Nat.digitChar (n / 100 % 10))
      (Nat.digitChar (n / 10 % 10)) (Nat.digitChar (n % 10)) = some n := by
  unfold getnum4
  rw [digitVal_digitChar (n / 1000) (by omega), digitVal_digitChar (n / 100 % 10) (by omega),
    digitVal_digitChar (n / 10 % 10) (by omega), digitVal_digitChar (n % 10) (by omega)]
  simp only [Option.some.injEq]
  omega

theorem appendInt_two (n : Nat) (h : n < 100) :
    appendInt (n : Int) 2 = String.mk [Nat.digitChar (n / 10), Nat.digitChar (n % 10)] := by
  unfold appendInt
  have h1 : ¬ ((n : Int) < 0) := by omega
  simp only [Int.natAbs_ofNat, h1, if_false, h, and_self, if_true]
  rfl

theorem appendInt_four (n : Nat) (h : n < 10000) :
    appendInt (n : Int) 4 = String.mk [Nat.digitChar (n / 1000), Nat.digitChar (n / 100 % 10),
      Nat.digitChar (n / 10 % 10), Nat.digitChar (n % 10)] := by
  unfold appendInt
  have h1 : ¬ ((n : Int) < 0) := by omega
  simp only [Int.natAbs_ofNat, h1, if_false, h, and_self, if_true]
  simp

/-- Reading back a text made of digit fields. -/
theorem parseLayout_fields (Y M D h mi sec zh zm : Nat) (neg : Bool)
    (hY : Y < 10000) (hM : M < 100) (hD : D < 100) (hh : h < 100) (hmi : mi < 100)
    (hs : sec < 100) (hzh : zh < 100) (hzm : zm < 100)
    (hvalid : 1 ≤ M ∧ M ≤ 12 ∧ 1 ≤ D ∧ D ≤ daysIn M (Y : Int) ∧ h < 24 ∧ mi < 60 ∧ sec < 60
      ∧ zh ≤ 24 ∧ zm ≤ 60) :
    parseLayout (String.mk
      [Nat.digitChar (Y / 1000), Nat.digitChar (Y / 100 % 10), Nat.digitChar (Y / 10 % 10),
        Nat.digitChar (Y % 10), '-', Nat.digitChar (M / 10), Nat.digitChar (M % 10), '-',
        Nat.digitChar (D / 10), Nat.digitChar (D % 10), ' ',
        Nat.digitChar (h / 10), Nat.digitChar (h % 10), ':',
        Nat.digitChar (mi / 10), Nat.digitChar (mi % 10), ':',
        Nat.digitChar (sec / 10), Nat.digitChar (sec % 10),
        (if neg then '-' else '+'), Nat.digitChar (zh / 10), Nat.digitChar (zh % 10), ':',
        Nat.digitChar (zm / 10), Nat.digitChar (zm % 10)])
      = some (dateUnix (Y : Int) M D h mi sec
          - (if neg then -(((zh * 60 + zm) * 60 : Nat) : Int)
             else (((zh * 60 + zm) * 60 : Nat) : Int))) := by
  unfold parseLayout
  simp only [getnum4_digits Y hY, getnum2_digits M hM, getnum2_digits D hD,
    getnum2_digits h hh, getnum2_digits mi hmi, getnum2_digits sec hs,
    getnum2_digits zh hzh, getnum2_digits zm hzm]
  cases neg
  · simp [hvalid]
  · simp [hvalid]

theorem tdiv_natCast (n k : Nat) : ((n : Int)).tdiv (k : Int) = ((n / k : Nat) : Int) := by
  rw [Int.tdiv_eq_ediv (Int.ofNat_nonneg n) (Int.ofNat_nonneg k)]
  norm_cast

theorem tmod_natCast (n k : Nat) : ((n : Int)).tmod (k : Int) = ((n % k : Nat) : Int) := by
  rw [Int.tmod_eq_emod (Int.ofNat_nonneg n) (Int.ofNat_nonneg k)]
  norm_cast

/-- The zone text of an offset within a day, as sign and digit fields. -/
theorem zoneText_fields (off : Int) (h₁ : -86400 < off) (h₂ : off < 86400) :
    zoneText off = String.mk
      [(if decide (off ≤ -60) then '-' else '+'),
        Nat.digitChar (off.natAbs / 60 / 60 / 10), Nat.digitChar (off.natAbs / 60 / 60 % 10),
        ':',
        Nat.digitChar (off.natAbs / 60 % 60 / 10), Nat.digitChar (off.natAbs / 60 % 60 % 10)] := by
  have h60 : (60 : Int) = ((60 : Nat) : Int) := rfl
  rcases Int.natAbs_eq off with hoff | hoff
  · -- the offset is not negative
    have hz : off.tdiv 60 = ((off.natAbs / 60 : Nat) : Int) := by
      rw [hoff, h60, tdiv_natCast]; simp
    have hneg : ¬ (off ≤ -60) := by omega
    have hzn : ¬ (((off.natAbs / 60 : Nat) : Int) < 0) := by omega
    unfold zoneText
    simp only [hz, hzn, if_false, hneg, decide_False]
    rw [h60, tdiv_natCast, tmod_natCast, appendInt_two _ (by omega),
      appendInt_two _ (by omega)]
    rfl
  · -- the offset is negative or zero
    have hz : off.tdiv 60 = -((off.natAbs / 60 : Nat) : Int) := by
      rw [hoff, Int.neg_tdiv, h60, tdiv_natCast]; simp
    by_cases hneg : off ≤ -60
    · have hzn : -((off.natAbs / 60 : Nat) : Int) < 0 := by omega
      unfold zoneText
      simp only [hz, hzn, if_true, hneg, decide_True, neg_neg]
      rw [h60, tdiv_natCast, tmod_natCast, appendInt_two _ (by omega),
        appendInt_two _ (by omega)]
      rfl
    · have hzero : off.natAbs / 60 = 0 := by omega
      have hzn : ¬ (-((off.natAbs / 60 : Nat) : Int) < 0) := by omega
      unfold zoneText
      simp only [hz, hzn, if_false, hneg, decide_False]
      rw [hzero]
      rfl

/-- The date and clock text of an absolute second count whose year has four digits. -/
theorem clockText_fields (abs : Nat) (Y : Nat) (hY : Y < 10000)
    (hyear : (absDate (abs / 86400)).1 = (Y : Int))
    (hM : (absDate (abs / 86400)).2.1 < 100) (hD : (absDate (abs / 86400)).2.2 < 100)
    (hh : (absClock abs).1 < 100) (hmi : (absClock abs).2.1 < 100)
    (hs : (absClock abs).2.2 < 100) :
    clockText abs = String.mk
      [Nat.digitChar (Y / 1000), Nat.digitChar (Y / 100 % 10), Nat.digitChar (Y / 10 % 10),
        Nat.digitChar (Y % 10), '-',
        Nat.digitChar ((absDate (abs / 86400)).2.1 / 10),
        Nat.digitChar ((absDate (abs / 86400)).2.1 % 10), '-',
        Nat.digitChar ((absDate (abs / 86400)).2.2 / 10),
        Nat.digitChar ((absDate (abs / 86400)).2.2 % 10), ' ',
        Nat.digitChar ((absClock abs).1 / 10), Nat.digitChar ((absClock abs).1 % 10), ':',
        Nat.digitChar ((absClock abs).2.1 / 10), Nat.digitChar ((absClock abs).2.1 % 10), ':',
        Nat.digitChar ((absClock abs).2.2 / 10), Nat.digitChar ((absClock abs).2.2 % 10)] := by
  unfold clockText
  simp only []
  rw [hyear, appendInt_four Y hY, appendInt_two _ hM, appendInt_two _ hD,
    appendInt_two _ hh, appendInt_two _ hmi, appendInt_two _ hs]
  rfl

theorem absSeconds_of_range (zone : Zone) (ts : Int)
    (h₁ : -unixToAbsolute ≤ ts + zone ts) (h₂ : ts + zone ts < 2 ^ 63) :
    ((absSeconds zone ts : Nat) : Int) = ts + zone ts + unixToAbsolute ∧
    absSeconds zone ts < 2 ^ 64 := by
  unfold absSeconds
  simp only [unixToAbsolute] at h₁ ⊢
  omega

/-- Reading back what `Format` wrote: for a local wall clock within the years 0 to 9999
and a zone offset of whole minutes within a day, `Parse` returns the formatted instant. -/
theorem parseLayout_goFormat (zone : Zone) (ts : Int)
    (hlo : -62167219200 ≤ ts + zone ts) (hhi : ts + zone ts < 253402300800)
    (hmin : zone ts % 60 = 0) (hz₁ : -86400 < zone ts) (hz₂ : zone ts < 86400) :
    parseLayout (goFormat zone ts) = some ts := by
  obtain ⟨habs, hlt⟩ := absSeconds_of_range zone ts
    (by simp only [unixToAbsolute]; omega) (by omega)
  simp only [unixToAbsolute] at habs
  obtain ⟨hy0, hy1⟩ := year_range (absSeconds zone ts) (by omega) (by omega)
  obtain ⟨m1, m2, d1, d2, c1, c2, c3, hdate⟩ := date_clock_inverse (absSeconds zone ts) hlt
  obtain ⟨Y, hYeq⟩ : ∃ Y : Nat, (absDate (absSeconds zone ts / 86400)).1 = (Y : Int) :=
    ⟨(absDate (absSeconds zone ts / 86400)).1.toNat, by omega⟩
  have hY : Y < 10000 := by omega
  have hwrap : wrapInt (((absSeconds zone ts : Nat) : Int) - unixToAbsolute)
      = ts + zone ts := by
    rw [wrapInt_of_range _ (by simp only [unixToAbsolute]; omega)
      (by simp only [unixToAbsolute]; omega)]
    simp only [unixToAbsolute]
    omega
  have hD31 : (absDate (absSeconds zone ts / 86400)).2.2 < 100 := by
    have : daysIn (absDate (absSeconds zone ts / 86400)).2.1
        (absDate (absSeconds zone ts / 86400)).1 ≤ 31 := by
      unfold daysIn
      split
      · omega
      · have : ∀ m, 1 ≤ m → m ≤ 12 → daysBefore m - daysBefore (m - 1) ≤ 31 := by decide
        exact this _ m1 m2
    omega
  unfold goFormat
  rw [clockText_fields (absSeconds zone ts) Y hY hYeq (by omega) hD31 (by omega) (by omega)
      (by omega),
    zoneText_fields (zone ts) hz₁ hz₂]
  have happ : ∀ l₁ l₂ : List Char, String.mk l₁ ++ String.mk l₂ = String.mk (l₁ ++ l₂) :=
    fun _ _ => rfl
  rw [happ]
  simp only [List.cons_append, List.nil_append]
  have hparse := parseLayout_fields Y (absDate (absSeconds zone ts / 86400)).2.1
    (absDate (absSeconds zone ts / 86400)).2.2 (absClock (absSeconds zone ts)).1
    (absClock (absSeconds zone ts)).2.1 (absClock (absSeconds zone ts)).2.2
    ((zone ts).natAbs / 60 / 60) ((zone ts).natAbs / 60 % 60) (decide (zone ts ≤ -60))
    hY (by omega) hD31 (by omega) (by omega) (by omega) (by omega) (by omega)
    ⟨m1, m2, d1, by rw [← hYeq]; exact d2, c1, c2, c3, by omega, by omega⟩
  rw [hparse, ← hYeq, hdate, hwrap]
  congr 1
  have hna : (((zone ts).natAbs : Nat) : Int) = if zone ts < 0 then -zone ts else zone ts := by
    split
    · exact Int.ofNat_natAbs_of_nonpos (by omega)
    · exact Int.natAbs_of_nonneg (by omega)
  generalize (zone ts).natAbs = n at hna ⊢
  by_cases hneg : zone ts ≤ -60
  · rw [if_pos (by omega)] at hna
    simp only [hneg, decide_True, if_true]
    omega
  · rw [if_neg (by omega)] at hna
    simp only [hneg, decide_False, Bool.false_eq_true, if_false]
    omega

set_option maxRecDepth 1000000 in
theorem goFormat_sample_utc :
    goFormat utcZone 1673841373 = "2023-01-16 03:56:13+00:00" := by decide

set_option maxRecDepth 1000000 in
theorem goFormat_sample_plus_one :
    goFormat (fixedZone 3600) 1673841373 = "2023-01-16 04:56:13+01:00" := by decide

set_option maxRecDepth 1000000 in
theorem goFormat_sample_year_10000 :
    goFormat utcZone 253402300800 = "10000-01-01 00:00:00+00:00" := by decide

set_option maxRecDepth 1000000 in
theorem parseLayout_sample_year_10000 :
    parseLayout "10000-01-01 00:00:00+00:00" = none := by decide

theorem zoneText_zero : zoneText 0 = "+00:00" := by decide

theorem zoneText_length_pos (off : Int) : 0 < (zoneText off).length := by
  unfold zoneText
  simp only []
  split <;> simp only [String.length_append] <;>
    [(have : "-".length = 1 := by decide); (have : "+".length = 1 := by decide)] <;> omega

theorem goFormat_ne_empty (zone : Zone) (ts : Int) : goFormat zone ts ≠ "" := by
  intro h
  have hl : (goFormat zone ts).length = 0 := by rw [h]; rfl
  unfold goFormat at hl
  rw [String.length_append] at hl
  have := zoneText_length_pos (zone ts)
  omega

/-! ## Timestamps: the claims -/

/-- C12, as stated, fails: in a process whose local zone is one hour east of UTC,
`formatISO8601(1673841373)` is the local wall clock `04:56:13` followed by `+01:00`, not
the UTC wall clock `03:56:13` followed by `+00:00` that a UTC process renders. -/
theorem formatISO8601_renders_local_zone :
    formatISO8601 (goFormat (fixedZone 3600)) 1673841373 = "2023-01-16 04:56:13+01:00" ∧
    formatISO8601 (goFormat utcZone) 1673841373 = "2023-01-16 03:56:13+00:00" ∧
    formatISO8601 (goFormat (fixedZone 3600)) 1673841373
      ≠ formatISO8601 (goFormat utcZone) 1673841373 := by
  have h₁ : formatISO8601 (goFormat (fixedZone 3600)) 1673841373
      = "2023-01-16 04:56:13+01:00" := by
    simp only [formatISO8601, goFormat_sample_plus_one]; decide
  have h₂ : formatISO8601 (goFormat utcZone) 1673841373 = "2023-01-16 03:56:13+00:00" := by
    simp only [formatISO8601, goFormat_sample_utc]; decide
  refine ⟨h₁, h₂, ?_⟩
  rw [h₁, h₂]
  decide

/-- C12, amended: for every nonzero `ts` in the range of the library's calendar,
`formatISO8601(ts)` is the wall-clock time of `ts` in the local zone of the process
(valid year, month, day, hour, minute, second which `Date` maps to `ts` plus the zone
offset), rendered as year (at least four digits), month, day, hour, minute and second in
the form `YYYY-MM-DD HH:MM:SS`, followed by the text of the local offset at `ts`; when
that offset is zero, as in UTC, the fields are the UTC wall clock of `ts` and the text
ends in `+00:00`. -/
theorem formatISO8601_local_wall_clock (zone : Zone) (ts : Int) (hts : ts ≠ 0)
    (hlo : -unixToAbsolute ≤ ts + zone ts) (hhi : ts + zone ts < 2 ^ 63) :
    ∃ (year : Int) (month day hour min sec : Nat),
      1 ≤ month ∧ month ≤ 12 ∧ 1 ≤ day ∧ day ≤ daysIn month year ∧
      hour < 24 ∧ min < 60 ∧ sec < 60 ∧
      dateUnix year month day hour min sec = ts + zone ts ∧
      formatISO8601 (goFormat zone) ts
        = appendInt year 4 ++ "-" ++ appendInt month 2 ++ "-" ++ appendInt day 2 ++ " " ++
          appendInt hour 2 ++ ":" ++ appendInt min 2 ++ ":" ++ appendInt sec 2 ++
          zoneText (zone ts) ∧
      (zone ts = 0 →
        dateUnix year month day hour min sec = ts ∧
        formatISO8601 (goFormat zone) ts
          = appendInt year 4 ++ "-" ++ appendInt month 2 ++ "-" ++ appendInt day 2 ++ " " ++
            appendInt hour 2 ++ ":" ++ appendInt min 2 ++ ":" ++ appendInt sec 2 ++
            "+00:00") := by
  obtain ⟨habs, hlt⟩ := absSeconds_of_range zone ts hlo hhi
  obtain ⟨m1, m2, d1, d2, c1, c2, c3, hdate⟩ := date_clock_inverse (absSeconds zone ts) hlt
  have hwrap : wrapInt (((absSeconds zone ts : Nat) : Int) - unixToAbsolute)
      = ts + zone ts := by
    rw [habs]
    have e : ts + zone ts + unixToAbsolute - unixToAbsolute = ts + zone ts := by omega
    rw [e]
    exact wrapInt_of_range _ (by simp only [unixToAbsolute] at hlo; omega) hhi
  have hfmt : formatISO8601 (goFormat zone) ts
      = clockText (absSeconds zone ts) ++ zoneText (zone ts) := by
    simp only [formatISO8601, hts, if_false, goFormat]
  refine ⟨_, _, _, _, _, _, m1, m2, d1, d2, c1, c2, c3, hdate.trans hwrap, hfmt, ?_⟩
  intro h0
  refine ⟨?_, ?_⟩
  · rw [hdate, hwrap, h0]; omega
  · rw [hfmt, h0, zoneText_zero]; rfl

set_option maxRecDepth 1000000 in
/-- Witness of C12 (amended): in the zone one hour east of UTC the instant 1673841373 is
rendered with the local wall clock and `+01:00`. -/
theorem formatISO8601_local_wall_clock_witness :
    ∃ (year : Int) (month day hour min sec : Nat),
      1 ≤ month ∧ month ≤ 12 ∧ 1 ≤ day ∧ day ≤ daysIn month year ∧
      hour < 24 ∧ min < 60 ∧ sec < 60 ∧
      dateUnix year month day hour min sec = 1673841373 + fixedZone 3600 1673841373 ∧
      formatISO8601 (goFormat (fixedZone 3600)) 1673841373
        = appendInt year 4 ++ "-" ++ appendInt month 2 ++ "-" ++ appendInt day 2 ++ " " ++
          appendInt hour 2 ++ ":" ++ appendInt min 2 ++ ":" ++ appendInt sec 2 ++
          zoneText (fixedZone 3600 1673841373) ∧
      (fixedZone 3600 1673841373 = 0 →
        dateUnix year month day hour min sec = 1673841373 ∧
        formatISO8601 (goFormat (fixedZone 3600)) 1673841373
          = appendInt year 4 ++ "-" ++ appendInt month 2 ++ "-" ++ appendInt day 2 ++ " " ++
            appendInt hour 2 ++ ":" ++ appendInt min 2 ++ ":" ++ appendInt sec 2 ++
            "+00:00") :=
  formatISO8601_local_wall_clock (fixedZone 3600) 1673841373 (by decide) (by decide)
    (by decide)

/-- C13, as stated, fails: the first second of the year 10000 is rendered with a
five-digit year, which the layout, reading exactly four year digits, does not parse. -/
theorem formatISO8601_year_10000_not_parsed :
    formatISO8601 (goFormat utcZone) 253402300800 = "10000-01-01 00:00:00+00:00" ∧
    parseLayout (formatISO8601 (goFormat utcZone) 253402300800) = none := by
  have h : formatISO8601 (goFormat utcZone) 253402300800 = "10000-01-01 00:00:00+00:00" := by
    simp only [formatISO8601, goFormat_sample_year_10000]; decide
  exact ⟨h, by rw [h]; exact parseLayout_sample_year_10000⟩

/-- C13, amended: for every nonzero `ts` whose local wall clock lies in the years 0 to
9999 and whose local zone offset at `ts` is a whole number of minutes, less than a day in
magnitude, parsing `formatISO8601(ts)` with the layout `2006-01-02 15:04:05-07:00` yields
the instant `ts`. -/
theorem formatISO8601_round_trip (zone : Zone) (ts : Int) (hts : ts ≠ 0)
    (hlo : -62167219200 ≤ ts + zone ts) (hhi : ts + zone ts < 253402300800)
    (hmin : zone ts % 60 = 0) (hz₁ : -86400 < zone ts) (hz₂ : zone ts < 86400) :
    parseLayout (formatISO8601 (goFormat zone) ts) = some ts := by
  simp only [formatISO8601, hts, if_false]
  exact parseLayout_goFormat zone ts hlo hhi hmin hz₁ hz₂

/-- Witness of C13 (amended): the instant 1673841373 in the zone one hour east of UTC. -/
theorem formatISO8601_round_trip_witness :
    parseLayout (formatISO8601 (goFormat (fixedZone 3600)) 1673841373) = some 1673841373 :=
  formatISO8601_round_trip (fixedZone 3600) 1673841373 (by decide) (by decide) (by decide)
    (by decide) (by decide) (by decide)

/-- C14: `formatISO8601(0)` is the empty string; for every other `ts`, negative ones
included, and every local zone, `formatISO8601(ts)` is not empty; hence in a row the
`start_date` column (column 10) is empty exactly when `Started` is 0 and the `end_date`
column (column 11) is empty exactly when `Stopped` is 0. -/
theorem formatISO8601_empty_iff_zero (zone : Zone) (rt : Runtime) (ts : Int)
    (item : HistoryItem) :
    formatISO8601 (goFormat zone) 0 = "" ∧
    (formatISO8601 (goFormat zone) ts = "" ↔ ts = 0) ∧
    (csvHeader[10]? = some "start_date" ∧ csvHeader[11]? = some "end_date") ∧
    ((csvRow { rt with unixFormat := goFormat zone } item)[10]? = some ""
      ↔ item.Started = 0) ∧
    ((csvRow { rt with unixFormat := goFormat zone } item)[11]? = some ""
      ↔ item.Stopped = 0) := by
  have key : ∀ t : Int, formatISO8601 (goFormat zone) t = "" ↔ t = 0 := by
    intro t
    constructor
    · intro h
      by_contra hne
      simp only [formatISO8601, hne, if_false] at h
      exact goFormat_ne_empty zone t h
    · intro h
      simp [formatISO8601, h]
  refine ⟨(key 0).2 rfl, key ts, ⟨rfl, rfl⟩, ?_, ?_⟩
  · simp only [csvRow, List.getElem?_cons_succ, List.getElem?_cons_zero, Option.some.injEq]
    exact key _
  · simp only [csvRow, List.getElem?_cons_succ, List.getElem?_cons_zero, Option.some.injEq]
    exact key _

end TautulliExporter
